import Mathlib

/-!
Shallow embedding of `src/dynamic-websocket-pool.js`
(node-red-contrib-dynamic-websocket-pool).

The file models, faithfully to the JavaScript source:
 * the opportunistic JSON codec (`parseMaybeJSON`, `JSON.stringify`,
   `JSON.parse` restricted to the JSON grammar);
 * the reconnect backoff policy (`nextBackoff`) over exact rationals;
 * the dial-option construction of `openConnection` (lines 53-102) and the
   fallback constructor options used by reconnect dials (lines 128-132);
 * the connection pool itself as an executable small-step state machine:
   registry of named records, per-record transport lifecycle, timers and the
   emitted event / sent frame / warning streams.

Machine scheduling and real time are abstracted: a timer is a boolean "armed"
flag and a timer firing is an explicit action, enabled only while armed.
Transport callbacks are actions too, guarded by the transport state that makes
them possible in the `ws` client library.
-/

namespace WSPool

/-- Opening curly brace character, kept out of string literals. -/
def lbraceC : Char := Char.ofNat 123

/-- Closing curly brace character, kept out of string literals. -/
def rbraceC : Char := Char.ofNat 125

/-! ## JSON values

JavaScript values that `JSON.parse` can produce / `JSON.stringify` consumes.
Numbers are kept as their literal text (the source only moves them between
text and structure, it never computes with them). -/

mutual

inductive JVal : Type where
  | jnull : JVal
  | jbool : Bool → JVal
  | jnum : String → JVal
  | jstr : String → JVal
  | jarr : JList → JVal
  | jobj : JMems → JVal

inductive JList : Type where
  | nil : JList
  | cons : JVal → JList → JList

inductive JMems : Type where
  | nil : JMems
  | cons : String → JVal → JMems → JMems

end

/-- Lower-case hexadecimal digit, as used by `JSON.stringify` escapes. -/
def hexDigit (n : ℕ) : Char :=
  if n < 10 then Char.ofNat (48 + n) else Char.ofNat (87 + n)

/-- Escape of one character inside a JSON string literal (`JSON.stringify`). -/
def escChar (c : Char) : String :=
  if c = '"' then "\\\""
  else if c = '\\' then "\\\\"
  else if c = Char.ofNat 8 then "\\b"
  else if c = Char.ofNat 9 then "\\t"
  else if c = Char.ofNat 10 then "\\n"
  else if c = Char.ofNat 12 then "\\f"
  else if c = Char.ofNat 13 then "\\r"
  else if c.toNat < 32 then
    "\\u00" ++ String.singleton (hexDigit (c.toNat / 16)) ++
      String.singleton (hexDigit (c.toNat % 16))
  else String.singleton c

/-- Escape a whole string body. -/
def escString (s : String) : String := String.join (s.data.map escChar)

/-- Quoted JSON string literal. -/
def quoteJ (s : String) : String := "\"" ++ escString s ++ "\""

mutual

/-- Compact JSON encoding, as produced by `JSON.stringify` (no spaces). -/
def stringifyJ : JVal → String
  | .jnull => "null"
  | .jbool true => "true"
  | .jbool false => "false"
  | .jnum lit => lit
  | .jstr s => quoteJ s
  | .jarr xs => "[" ++ stringifyL xs ++ "]"
  | .jobj ms => "\x7b" ++ stringifyM ms ++ "\x7d"

/-- Comma-separated encoding of array elements. -/
def stringifyL : JList → String
  | .nil => ""
  | .cons v .nil => stringifyJ v
  | .cons v tl => stringifyJ v ++ "," ++ stringifyL tl

/-- Comma-separated encoding of object members. -/
def stringifyM : JMems → String
  | .nil => ""
  | .cons k v .nil => quoteJ k ++ ":" ++ stringifyJ v
  | .cons k v tl => quoteJ k ++ ":" ++ stringifyJ v ++ "," ++ stringifyM tl

end

/-! ## JSON parsing (`JSON.parse`) -/

/-- JSON insignificant whitespace. -/
def jIsWs (c : Char) : Bool := c = ' ' || c = '\t' || c = '\n' || c = '\r'

/-- Drop leading JSON whitespace. -/
def skipWsL : List Char → List Char
  | [] => []
  | c :: cs => if jIsWs c then skipWsL cs else c :: cs

/-- Value of one hexadecimal digit. -/
def hexVal (c : Char) : Option ℕ :=
  if '0' ≤ c ∧ c ≤ '9' then some (c.toNat - 48)
  else if 'a' ≤ c ∧ c ≤ 'f' then some (c.toNat - 87)
  else if 'A' ≤ c ∧ c ≤ 'F' then some (c.toNat - 55)
  else none

/-- Four hexadecimal digits of a `\uXXXX` escape. -/
def parseHex4 : List Char → Option (ℕ × List Char)
  | a :: b :: c :: d :: rest =>
    match hexVal a, hexVal b, hexVal c, hexVal d with
    | some x, some y, some z, some w => some ((((x * 16 + y) * 16 + z) * 16 + w), rest)
    | _, _, _, _ => none
  | _ => none

/-- Body of a JSON string literal after the opening quote; fuel bounds the
recursion (one unit per consumed character suffices). -/
def parseStrBody : ℕ → List Char → Option (String × List Char)
  | 0, _ => none
  | _, [] => none
  | fuel + 1, c :: rest =>
    if c = '"' then some ("", rest)
    else if c = '\\' then
      match rest with
      | [] => none
      | e :: rest2 =>
        let esc : Option (Char × List Char) :=
          if e = '"' then some ('"', rest2)
          else if e = '\\' then some ('\\', rest2)
          else if e = '/' then some ('/', rest2)
          else if e = 'b' then some (Char.ofNat 8, rest2)
          else if e = 'f' then some (Char.ofNat 12, rest2)
          else if e = 'n' then some (Char.ofNat 10, rest2)
          else if e = 'r' then some (Char.ofNat 13, rest2)
          else if e = 't' then some (Char.ofNat 9, rest2)
          else if e = 'u' then (parseHex4 rest2).map (fun p => (Char.ofNat p.1, p.2))
          else none
        match esc with
        | none => none
        | some (ch, rest3) =>
          match parseStrBody fuel rest3 with
          | none => none
          | some (s, r4) => some (String.singleton ch ++ s, r4)
    else if c.toNat < 32 then none
    else
      match parseStrBody fuel rest with
      | none => none
      | some (s, r2) => some (String.singleton c ++ s, r2)

/-- Optional fraction part of a JSON number. -/
def parseFrac (cs : List Char) : Option (String × List Char) :=
  match cs with
  | c :: r =>
    if c = '.' then
      let ds := r.takeWhile (·.isDigit)
      if ds.isEmpty then none
      else some ("." ++ String.mk ds, r.dropWhile (·.isDigit))
    else some ("", cs)
  | [] => some ("", [])

/-- Optional exponent part of a JSON number. -/
def parseExp (cs : List Char) : Option (String × List Char) :=
  match cs with
  | c :: r =>
    if c = 'e' ∨ c = 'E' then
      let (sgn, r2) :=
        match r with
        | d :: rr => if d = '+' then ("+", rr) else if d = '-' then ("-", rr) else ("", r)
        | [] => ("", r)
      let ds := r2.takeWhile (·.isDigit)
      if ds.isEmpty then none
      else some (String.singleton c ++ sgn ++ String.mk ds, r2.dropWhile (·.isDigit))
    else some ("", cs)
  | [] => some ("", [])

/-- JSON numeric literal (sign, integer part without leading zeros,
optional fraction and exponent), returned as its text. -/
def parseNumLit (cs : List Char) : Option (String × List Char) :=
  let (sgn, cs1) :=
    match cs with
    | c :: r => if c = '-' then ("-", r) else ("", cs)
    | [] => ("", cs)
  match cs1 with
  | [] => none
  | c :: r =>
    if ¬ c.isDigit then none
    else
      let (ip, r2) :=
        if c = '0' then ("0", r)
        else (String.mk (c :: r.takeWhile (·.isDigit)), r.dropWhile (·.isDigit))
      match parseFrac r2 with
      | none => none
      | some (fp, r3) =>
        match parseExp r3 with
        | none => none
        | some (ep, r4) => some (sgn ++ ip ++ fp ++ ep, r4)

/-- Expect a literal character sequence. -/
def expectChars : List Char → List Char → Option (List Char)
  | [], cs => some cs
  | p :: ps, c :: cs => if c = p then expectChars ps cs else none
  | _ :: _, [] => none

mutual

/-- Parse one JSON value; fuel bounds nesting (one unit per consumed
character suffices). -/
def parseVal : ℕ → List Char → Option (JVal × List Char)
  | 0, _ => none
  | fuel + 1, cs =>
    match skipWsL cs with
    | [] => none
    | c :: rest =>
      if c = '"' then (parseStrBody (fuel + 1) rest).map (fun p => (.jstr p.1, p.2))
      else if c = lbraceC then
        match skipWsL rest with
        | d :: r2 =>
          if d = rbraceC then some (.jobj .nil, r2)
          else (parseMems fuel (d :: r2)).map (fun p => (.jobj p.1, p.2))
        | [] => none
      else if c = '[' then
        match skipWsL rest with
        | d :: r2 =>
          if d = ']' then some (.jarr .nil, r2)
          else (parseElems fuel (d :: r2)).map (fun p => (.jarr p.1, p.2))
        | [] => none
      else if c = 't' then (expectChars ('r' :: 'u' :: 'e' :: []) rest).map (fun r => (.jbool true, r))
      else if c = 'f' then (expectChars ('a' :: 'l' :: 's' :: 'e' :: []) rest).map (fun r => (.jbool false, r))
      else if c = 'n' then (expectChars ('u' :: 'l' :: 'l' :: []) rest).map (fun r => (.jnull, r))
      else (parseNumLit (c :: rest)).map (fun p => (.jnum p.1, p.2))

/-- Parse one or more comma-separated array elements and the closing bracket. -/
def parseElems : ℕ → List Char → Option (JList × List Char)
  | 0, _ => none
  | fuel + 1, cs =>
    match parseVal fuel cs with
    | none => none
    | some (v, r1) =>
      match skipWsL r1 with
      | d :: r2 =>
        if d = ',' then (parseElems fuel r2).map (fun p => (.cons v p.1, p.2))
        else if d = ']' then some (.cons v .nil, r2)
        else none
      | [] => none

/-- Parse one or more comma-separated object members and the closing brace. -/
def parseMems : ℕ → List Char → Option (JMems × List Char)
  | 0, _ => none
  | fuel + 1, cs =>
    match skipWsL cs with
    | c :: rest =>
      if c = '"' then
        match parseStrBody (fuel + 1) rest with
        | none => none
        | some (k, r1) =>
          match skipWsL r1 with
          | d :: r2 =>
            if d = ':' then
              match parseVal fuel r2 with
              | none => none
              | some (v, r3) =>
                match skipWsL r3 with
                | e :: r4 =>
                  if e = ',' then (parseMems fuel r4).map (fun p => (.cons k v p.1, p.2))
                  else if e = rbraceC then some (.cons k v .nil, r4)
                  else none
                | [] => none
            else none
          | [] => none
      else none
    | [] => none

end

/-- Model of `JSON.parse`: parse a complete JSON document,
rejecting trailing garbage. -/
def jparse (s : String) : Option JVal :=
  match parseVal (s.length + 2) s.data with
  | some (v, rest) => if skipWsL rest = [] then some v else none
  | none => none

/-! ## Payloads and the opportunistic decoder -/

/-- A JavaScript value as it travels through the node: a text string, raw
bytes (a `Buffer`), or a structured (JSON-able, non-Buffer) object.
`isObject` (line 7 of the source) is true exactly on the `obj` case. -/
inductive Payload : Type where
  | str : String → Payload
  | buf : List ℕ → Payload
  | obj : JVal → Payload

/-- UTF-8 bytes of one character. -/
def utf8Bytes (c : Char) : List ℕ :=
  let n := c.toNat
  if n < 128 then [n]
  else if n < 2048 then [192 + n / 64, 128 + n % 64]
  else if n < 65536 then [224 + n / 4096, 128 + (n / 64) % 64, 128 + n % 64]
  else [240 + n / 262144, 128 + (n / 4096) % 64, 128 + (n / 64) % 64, 128 + n % 64]

/-- UTF-8 bytes of a string (`Buffer.from(s, 'utf8')`). -/
def strBytes (s : String) : List ℕ := (s.data.map utf8Bytes).flatten

/-- Whitespace removed by JavaScript `String.prototype.trim`. -/
def jsIsSpace (c : Char) : Bool :=
  c = ' ' || c = '\t' || c = '\n' || c = '\r' || c = Char.ofNat 11 ||
    c = Char.ofNat 12 || c = Char.ofNat 160 || c = Char.ofNat 8232 ||
    c = Char.ofNat 8233 || c = Char.ofNat 65279

/-- JavaScript `body.slice(0, n)`: the first `n` characters (the source uses
it to truncate; JS counts UTF-16 units, modelled here as characters). -/
def jsSlice (n : ℕ) (s : String) : String := String.mk (s.data.take n)

/-- JavaScript `text.trim()`. -/
def trimJS (s : String) : String :=
  String.mk (((s.data.dropWhile jsIsSpace).reverse.dropWhile jsIsSpace).reverse)

/-- First character test. -/
def headIs (c : Char) : List Char → Bool
  | [] => false
  | d :: _ => d = c

/-- Last character test. -/
def lastIs (c : Char) (l : List Char) : Bool := headIs c l.reverse

/-- Trimmed text is syntactically bracketed as a JSON object or array
(the condition on line 40 of the source: `startsWith`/`endsWith` on the
brace and bracket characters). -/
def bracketedJS (t : String) : Bool :=
  (headIs lbraceC t.data && lastIs rbraceC t.data) ||
    (headIs '[' t.data && lastIs ']' t.data)

/-- Model of `parseMaybeJSON` (lines 35-45): trim; empty text passes through;
bracketed text is fed to `JSON.parse`, any parse failure falls back to the
original text; everything else passes through unchanged. -/
def parseMaybeJSON (text : String) : Payload :=
  let t := trimJS text
  if t = "" then .str text
  else if bracketedJS t then
    match jparse t with
    | some v => .obj v
    | none => .str text
  else .str text

/-- Inbound frame data as handed to the `'message'` handler: either a
`Buffer` of bytes or a string. -/
inductive WsData : Type where
  | bytes : List ℕ → WsData
  | strData : String → WsData

/-- Model of the `'message'` handler expression (line 151):
`isBinary || Buffer.isBuffer(data) ? Buffer.from(data) : parseMaybeJSON(data.toString())`.
`Buffer.from` on a buffer copies the same bytes; on a string it takes the
UTF-8 bytes; `toString` on a string is the identity. -/
def inboundPayload : WsData → Bool → Payload
  | .bytes b, _ => .buf b
  | .strData s, true => .buf (strBytes s)
  | .strData s, false => parseMaybeJSON s

/-! ## Backoff policy (lines 14-16 and 24-28)

Delays are exact rationals; `Math.random()` is replaced by an arbitrary
jitter value constrained to the interval the code draws from
(`jitter = Math.floor(base * 0.25 * Math.random()) ∈ [0, base/4]`). -/

/-- JavaScript `x || d` for an optional numeric config value:
missing or zero falls back to the default. -/
def jsOrQ (v : Option ℚ) (d : ℚ) : ℚ :=
  match v with
  | none => d
  | some x => if x = 0 then d else x

/-- Line 15: `Math.max(0, Number(config.reconnectMin || 1000))`. -/
def clampReconnectMin (x : ℚ) : ℚ := max 0 x

/-- Line 16: `Math.max(reconnectMin, Number(config.reconnectMax || 30000))`. -/
def clampReconnectMax (rmin x : ℚ) : ℚ := max rmin x

/-- Configured reconnect minimum from the raw config value. -/
def reconnectMinCfg (v : Option ℚ) : ℚ := clampReconnectMin (jsOrQ v 1000)

/-- Configured reconnect maximum from the raw config value. -/
def reconnectMaxCfg (rmin : ℚ) (v : Option ℚ) : ℚ := clampReconnectMax rmin (jsOrQ v 30000)

/-- Model of `nextBackoff` (lines 24-28):
`base = min(max, min * 2^attempt)`, result `min(max, base + jitter)`. -/
def nextBackoff (rmin rmax : ℚ) (attempt : ℕ) (jitter : ℚ) : ℚ :=
  let base := min rmax (rmin * 2 ^ attempt)
  min rmax (base + jitter)

/-! ## Endpoint options and dial options -/

/-- The option object accepted by `openConnection` (the `opts` argument,
lines 47-102). `none` models an absent (`undefined`) field. -/
structure CreateOpts where
  url : String
  protocols : Option (List String) := none
  headers : List (String × String) := []
  username : Option String := none
  password : Option String := none
  bearerToken : Option String := none
  origin : Option String := none
  userAgent : Option String := none
  rejectUnauthorized : Option Bool := none
  ca : Option String := none
  cert : Option String := none
  key : Option String := none
  passphrase : Option String := none
  servername : Option String := none
  proxy : Option String := none
  handshakeTimeout : Option ℕ := none
  timeoutMs : Option ℕ := none
  perMessageDeflate : Option Bool := none
  pingInterval : Option Int := none
deriving DecidableEq

/-- Restriction applied by the `create` command handler (lines 268-276): only
these fields of the command are passed on to `openConnection`. -/
def cmdOpts (c : CreateOpts) : CreateOpts :=
  { url := c.url
    protocols := c.protocols
    headers := c.headers
    username := c.username
    password := c.password
    rejectUnauthorized := c.rejectUnauthorized
    pingInterval := c.pingInterval }

/-- Set one header, replacing an existing key (JS object property write). -/
def setHeader (k v : String) (hs : List (String × String)) : List (String × String) :=
  if hs.any (fun p => p.1 = k) then hs.map (fun p => if p.1 = k then (k, v) else p)
  else hs ++ [(k, v)]

/-- Header lookup with the empty string for an absent key, so that JS
truthiness of `headers['Authorization']` is `≠ ""`. -/
def getHeaderD (k : String) (hs : List (String × String)) : String :=
  ((hs.find? (fun p => p.1 = k)).map (fun p => p.2)).getD ""

/-- Standard base64 alphabet. -/
def base64Table : List Char :=
  "ABCDEFGHIJKLMNOPQRSTUVWXYZabcdefghijklmnopqrstuvwxyz0123456789+/".data

/-- Base64 digit for a 6-bit value. -/
def b64Char (n : ℕ) : Char := base64Table.getD n 'A'

/-- Base64 encoding of a byte list, three bytes at a time with `=` padding. -/
def base64Chunk : List ℕ → String
  | [] => ""
  | [a] => String.mk [b64Char (a / 4), b64Char ((a % 4) * 16), '=', '=']
  | [a, b] => String.mk [b64Char (a / 4), b64Char ((a % 4) * 16 + b / 16), b64Char ((b % 16) * 4), '=']
  | a :: b :: c :: rest =>
    String.mk [b64Char (a / 4), b64Char ((a % 4) * 16 + b / 16),
      b64Char ((b % 16) * 4 + c / 64), b64Char (c % 64)] ++ base64Chunk rest

/-- Model of `makeAuthHeader` (lines 30-33). -/
def makeAuthHeader (username password : String) : String :=
  "Basic " ++ base64Chunk (strBytes (username ++ ":" ++ password))

/-- Header construction of `openConnection` (lines 55-68): merge the caller
headers, then basic auth (username truthy and password a string), bearer token
(only when no truthy `Authorization` yet), `Origin` and `User-Agent`. -/
def buildHeaders (o : CreateOpts) : List (String × String) :=
  let hs := o.headers
  let hs :=
    match o.username, o.password with
    | some u, some p => if u = "" then hs else setHeader "Authorization" (makeAuthHeader u p) hs
    | _, _ => hs
  let hs :=
    match o.bearerToken with
    | some tok =>
      if tok = "" then hs
      else if getHeaderD "Authorization" hs ≠ "" then hs
      else setHeader "Authorization" ("Bearer " ++ tok) hs
    | none => hs
  let hs :=
    match o.origin with
    | some og => if og = "" then hs else setHeader "Origin" og hs
    | none => hs
  match o.userAgent with
  | some ua => if ua = "" then hs else setHeader "User-Agent" ua hs
  | none => hs

/-- The constructor-option object handed to `new WS(url, ..., ctorOpts)`.
`agent` holds the proxy URL an `HttpsProxyAgent` was built from, if any. -/
structure CtorOpts where
  headers : List (String × String)
  rejectUnauthorized : Bool
  ca : Option String
  cert : Option String
  key : Option String
  passphrase : Option String
  servername : Option String
  handshakeTimeout : Option ℕ
  perMessageDeflate : Option Bool
  agent : Option String
deriving DecidableEq

/-- JavaScript `a || b || 0 then || undefined` chain over optional numbers:
zero counts as falsy and the all-falsy result is `undefined`. -/
def orFalsyNat (a b : Option ℕ) : Option ℕ :=
  let v := match a with
    | some n => if n = 0 then b else some n
    | none => b
  match v with
  | some n => if n = 0 then none else some n
  | none => none

/-- JS `opts.rejectUnauthorized !== false`. -/
def rejectUnauthorizedFlag (v : Option Bool) : Bool :=
  match v with
  | some false => false
  | _ => true

/-- The full dial options built by `openConnection` (lines 70-89): merged
headers, TLS material, SNI override, handshake timeout from the entry options,
per-message compression (defaulting to `true`), and the proxy agent. -/
def buildWsOptions (o : CreateOpts) : CtorOpts :=
  { headers := buildHeaders o
    rejectUnauthorized := rejectUnauthorizedFlag o.rejectUnauthorized
    ca := o.ca
    cert := o.cert
    key := o.key
    passphrase := o.passphrase
    servername := o.servername
    handshakeTimeout := orFalsyNat o.handshakeTimeout o.timeoutMs
    perMessageDeflate := some (o.perMessageDeflate.getD true)
    agent := o.proxy }

/-! ## The connection pool as a small-step state machine

Records (`ConnRec`) model the objects built on lines 91-99; they are kept in
`recs` even after `delete` or replacement, because the transport event handlers
close over them. The registry (`connections`, line 20) maps a name to the
serial of its current record. Transports model `ws` client sockets: `owner`
is the record whose handlers are wired to the socket (`connect`, lines
126-192), `closeRequested` records a local `ws.close()` issued while the
socket was still connecting, and `rejected` records a handled
`'unexpected-response'` — with a listener registered the `ws` library does not
abort the handshake, so a rejected socket emits no further events. -/

/-- Transport readiness (`WS.CONNECTING/OPEN/CLOSING/CLOSED`). -/
inductive WsState : Type where
  | connecting : WsState
  | opened : WsState
  | closing : WsState
  | closed : WsState
deriving DecidableEq

/-- One record of the `connections` map (lines 91-99); the timers are
modelled as armed/disarmed flags. -/
structure ConnRec where
  serial : ℕ
  id : String
  url : String
  protocols : Option (List String)
  headers : List (String × String)
  opts : CreateOpts
  ws : Option ℕ
  pingInterval : Int
  pingTimer : Bool
  reconnectAttempts : ℕ
  manualClose : Bool
  reconnectTimer : Bool
deriving DecidableEq

/-- One client socket ever constructed by `connect`. -/
structure Transport where
  serial : ℕ
  owner : ℕ
  st : WsState
  closeRequested : Bool
  rejected : Bool
  dialOpts : CtorOpts
deriving DecidableEq

/-- Messages emitted through `node.send` (the event sink). -/
inductive PoolEvent : Type where
  | openEv : String → String → PoolEvent
  | messageEv : String → Payload → String → PoolEvent
  | closeEv : String → ℕ → String → String → PoolEvent
  | errorEv : String → String → PoolEvent
  | httpErrorEv : String → ℕ → List (String × String) → String → PoolEvent
  | ack : String → String → PoolEvent

/-- Frames written to a socket (`ws.send` / `ws.ping`), tagged with the
connection name. -/
inductive SentFrame : Type where
  | textF : String → String → SentFrame
  | binaryF : String → List ℕ → SentFrame
  | pingF : String → SentFrame

/-- Node-level configuration (lines 14 and 17). The reconnect bounds only
influence timer durations, which the state machine abstracts away. -/
structure NodeConfig where
  pingIntervalDefault : Int
  timeoutMs : ℕ
deriving DecidableEq

/-- The whole node state: the registry, every record and socket ever created,
and the observable output streams. -/
structure PoolState where
  cfg : NodeConfig
  connections : List (String × ℕ)
  recs : List ConnRec
  transports : List Transport
  nextSerial : ℕ
  trace : List PoolEvent
  sent : List SentFrame
  warns : List String

/-- Fresh node state. -/
def initState (cfg : NodeConfig) : PoolState :=
  { cfg := cfg
    connections := []
    recs := []
    transports := []
    nextSerial := 0
    trace := []
    sent := []
    warns := [] }

/-- Registry lookup on a raw binding list. -/
def lookupKey (cs : List (String × ℕ)) (n : String) : Option ℕ :=
  (cs.find? (fun p => p.1 = n)).map (fun p => p.2)

/-- Registry lookup (`connections.get(id)`), giving the record serial. -/
def lookupConn (s : PoolState) (n : String) : Option ℕ := lookupKey s.connections n

/-- Record by serial. -/
def findRec (s : PoolState) (k : ℕ) : Option ConnRec :=
  s.recs.find? (fun r => r.serial = k)

/-- Transport by serial. -/
def findTr (s : PoolState) (k : ℕ) : Option Transport :=
  s.transports.find? (fun t => t.serial = k)

/-- Update the record with the given serial. -/
def updRec (k : ℕ) (f : ConnRec → ConnRec) (rs : List ConnRec) : List ConnRec :=
  rs.map (fun r => if r.serial = k then f r else r)

/-- Update the transport with the given serial. -/
def updTr (k : ℕ) (f : Transport → Transport) (ts : List Transport) : List Transport :=
  ts.map (fun t => if t.serial = k then f t else t)

/-- `connections.set(n, k)`: replace the binding or append a new one. -/
def setConn (n : String) (k : ℕ) (cs : List (String × ℕ)) : List (String × ℕ) :=
  if cs.any (fun p => p.1 = n) then cs.map (fun p => if p.1 = n then (n, k) else p)
  else cs ++ [(n, k)]

/-- `connections.delete(n)`. -/
def delConn (n : String) (cs : List (String × ℕ)) : List (String × ℕ) :=
  cs.filter (fun p => ¬ p.1 = n)

/-- Field effect of `closeConnection` on its record (lines 197-199):
set `manualClose`, cancel both timers. -/
def closeRecFields (r : ConnRec) : ConnRec :=
  { r with manualClose := true, reconnectTimer := false, pingTimer := false }

/-- Effect of `ws.close(1000, …)` (lines 201-203) on the socket: a connecting
socket gets its handshake abort requested, an open one starts closing,
anything else is left alone (the source guards on `CONNECTING || OPEN`). -/
def closeTr (t : Transport) : Transport :=
  match t.st with
  | .connecting => { t with closeRequested := true }
  | .opened => { t with st := .closing }
  | _ => t

/-- `closeConnection(id, {remove, silent})` without the registry removal
(lines 194-204): mark the record, cancel timers, request socket closure.
A missing name is a no-op. -/
def applyCloseByName (s : PoolState) (n : String) : PoolState :=
  match lookupConn s n with
  | none => s
  | some k =>
    match findRec s k with
    | none => s
    | some r =>
      let s1 := { s with recs := updRec k closeRecFields s.recs }
      match r.ws with
      | some tk => { s1 with transports := updTr tk closeTr s1.transports }
      | none => s1

/-- The constructor options used by a reconnect dial, where `connect` is
called without explicit options (lines 128-132): only the stored headers, the
stored `rejectUnauthorized` flag and the node-level handshake timeout. -/
def reconnectDialOpts (r : ConnRec) (nodeTimeoutMs : ℕ) : CtorOpts :=
  { headers := r.headers
    rejectUnauthorized := rejectUnauthorizedFlag r.opts.rejectUnauthorized
    ca := none
    cert := none
    key := none
    passphrase := none
    servername := none
    handshakeTimeout := some nodeTimeoutMs
    perMessageDeflate := none
    agent := none }

/-- Encoding applied by `sendTo` (lines 217-220): structured values are
JSON-stringified into a text frame, buffers go out as binary frames, strings
as text frames. -/
def encodeFrame (n : String) (p : Payload) : SentFrame :=
  match p with
  | .obj j => .textF n (stringifyJ j)
  | .str txt => .textF n txt
  | .buf b => .binaryF n b

/-- The open transport a send to `n` would use, if any: registry hit, record,
attached socket in `OPEN` state (the guard on line 213). -/
def openTransport (s : PoolState) (n : String) : Option Transport :=
  match lookupConn s n with
  | none => none
  | some k =>
    match findRec s k with
    | none => none
    | some r =>
      match r.ws with
      | none => none
      | some tk =>
        match findTr s tk with
        | none => none
        | some t => if t.st = .opened then some t else none

/-- Model of `sendTo` (lines 211-224): warn and drop unless the target is
`Open`, otherwise transmit the encoded frame. Total — nothing is thrown. -/
def sendTo (s : PoolState) (n : String) (p : Payload) : PoolState :=
  match openTransport s n with
  | none => { s with warns := s.warns ++ ["send failed: " ++ n ++ " not open"] }
  | some _ => { s with sent := s.sent ++ [encodeFrame n p] }

/-- Everything that can happen to the node: input-port commands and data
sends, transport callbacks, and timer firings. -/
inductive PoolAction : Type where
  | cmdCreate : String → CreateOpts → PoolAction
  | cmdClose : String → PoolAction
  | cmdDelete : String → PoolAction
  | cmdCloseAll : PoolAction
  | sendMsg : String → Payload → PoolAction
  | wsOpen : ℕ → PoolAction
  | wsClose : ℕ → ℕ → String → PoolAction
  | wsError : ℕ → String → PoolAction
  | wsMessage : ℕ → WsData → Bool → PoolAction
  | wsUnexpected : ℕ → ℕ → List (String × String) → String → PoolAction
  | fireReconnect : ℕ → PoolAction
  | firePing : ℕ → PoolAction

/-- One step of the node. `none` means the action is impossible now: a
command that throws validation errors, or a callback/timer whose guard does
not hold. -/
def step (a : PoolAction) (s : PoolState) : Option PoolState :=
  match a with
  | .cmdCreate n o =>
    -- lines 266-279: validation, implicit silent teardown, install, dial, ack
    if n = "" ∨ o.url = "" then none
    else
      let o := cmdOpts o
      let s1 := applyCloseByName s n
      let eS := s1.nextSerial
      let tS := s1.nextSerial + 1
      let r : ConnRec :=
        { serial := eS
          id := n
          url := o.url
          protocols := o.protocols
          headers := buildHeaders o
          opts := o
          ws := some tS
          pingInterval := o.pingInterval.getD s1.cfg.pingIntervalDefault
          pingTimer := false
          reconnectAttempts := 0
          manualClose := false
          reconnectTimer := false }
      let t : Transport :=
        { serial := tS
          owner := eS
          st := .connecting
          closeRequested := false
          rejected := false
          dialOpts := buildWsOptions o }
      some { s1 with
        connections := setConn n eS s1.connections
        recs := s1.recs ++ [r]
        transports := s1.transports ++ [t]
        nextSerial := tS + 1
        trace := s1.trace ++ [.ack "create" n] }
  | .cmdClose n =>
    -- lines 281-285: validation, closeConnection(remove:false), ack
    if n = "" then none
    else some { applyCloseByName s n with trace := s.trace ++ [.ack "close" n] }
  | .cmdDelete n =>
    -- lines 287-291: validation, closeConnection(remove:true), ack
    if n = "" then none
    else
      let s1 := applyCloseByName s n
      some { s1 with
        connections := delConn n s1.connections
        trace := s.trace ++ [.ack "delete" n] }
  | .cmdCloseAll =>
    -- lines 293-298: closeConnection on every current id, then one ack;
    -- the per-id closures touch disjoint records/sockets, so the loop is
    -- modelled as a simultaneous update
    let ks := s.connections.map (fun p => p.2)
    some { s with
      recs := s.recs.map (fun r => if ks.contains r.serial then closeRecFields r else r)
      transports := s.transports.map (fun t =>
        if s.recs.any (fun r => ks.contains r.serial && r.ws == some t.serial)
        then closeTr t else t)
      trace := s.trace ++ [.ack "closeAll" ""] }
  | .sendMsg n p =>
    -- lines 304-308: non-CMD input; empty name warns, otherwise sendTo
    if n = "" then some { s with warns := s.warns ++ ["Missing websocketId"] }
    else some (sendTo s n p)
  | .wsOpen tk =>
    -- lines 143-148: only a socket still handshaking, with no local close
    -- and no rejected handshake, can complete its open
    match findTr s tk with
    | none => none
    | some t =>
      if t.st = .connecting ∧ t.closeRequested = false ∧ t.rejected = false then
        match findRec s t.owner with
        | none => none
        | some r =>
          some { s with
            transports := updTr tk (fun u => { u with st := .opened }) s.transports
            recs := updRec t.owner (fun u =>
              { u with
                reconnectAttempts := 0
                pingTimer := decide (u.pingInterval > 0) }) s.recs
            trace := s.trace ++ [.openEv r.id r.url] }
      else none
  | .wsClose tk code reason =>
    -- lines 155-161: any not-yet-closed, not-rejected socket can close;
    -- cancel the heartbeat, emit close, schedule reconnect unless manual
    match findTr s tk with
    | none => none
    | some t =>
      if t.st ≠ .closed ∧ t.rejected = false then
        match findRec s t.owner with
        | none => none
        | some r =>
          some { s with
            transports := updTr tk (fun u => { u with st := .closed }) s.transports
            recs := updRec t.owner (fun u =>
              if u.manualClose then { u with pingTimer := false }
              else
                { u with
                  pingTimer := false
                  reconnectTimer := true
                  reconnectAttempts := u.reconnectAttempts + 1 }) s.recs
            trace := s.trace ++ [.closeEv r.id code reason r.url] }
      else none
  | .wsError tk msg =>
    -- lines 163-166: report only; reconnect is driven by the close event
    match findTr s tk with
    | none => none
    | some t =>
      if t.st ≠ .closed ∧ t.rejected = false then
        match findRec s t.owner with
        | none => none
        | some r => some { s with trace := s.trace ++ [.errorEv r.id msg] }
      else none
  | .wsMessage tk d isBin =>
    -- lines 150-153: only an open socket delivers messages
    match findTr s tk with
    | none => none
    | some t =>
      if t.st = .opened then
        match findRec s t.owner with
        | none => none
        | some r =>
          some { s with trace := s.trace ++ [.messageEv r.id (inboundPayload d isBin) r.url] }
      else none
  | .wsUnexpected tk status hdrs body =>
    -- lines 169-187: a handshaking socket got a non-101 response; emit the
    -- diagnostic (body capped at 2048) and nothing else — the handler never
    -- aborts the request, and with an 'unexpected-response' listener
    -- registered the ws library does not close the socket on its own
    match findTr s tk with
    | none => none
    | some t =>
      if t.st = .connecting ∧ t.closeRequested = false ∧ t.rejected = false then
        match findRec s t.owner with
        | none => none
        | some r =>
          some { s with
            transports := updTr tk (fun u => { u with rejected := true }) s.transports
            trace := s.trace ++ [.httpErrorEv r.id status hdrs (jsSlice 2048 body)] }
      else none
  | .fireReconnect k =>
    -- lines 105-111 and 126-138: the armed reconnect timer fires and dials
    -- a fresh socket with the fallback constructor options
    match findRec s k with
    | none => none
    | some r =>
      if r.reconnectTimer = true then
        let tS := s.nextSerial
        let t : Transport :=
          { serial := tS
            owner := k
            st := .connecting
            closeRequested := false
            rejected := false
            dialOpts := reconnectDialOpts r s.cfg.timeoutMs }
        some { s with
          recs := updRec k (fun u => { u with reconnectTimer := false, ws := some tS }) s.recs
          transports := s.transports ++ [t]
          nextSerial := tS + 1 }
      else none
  | .firePing k =>
    -- lines 113-124: the armed heartbeat interval ticks; a ping goes out
    -- only if the record's socket is currently open, errors are swallowed
    match findRec s k with
    | none => none
    | some r =>
      if r.pingTimer = true then
        let isOpen : Bool :=
          match r.ws with
          | none => false
          | some tk =>
            match findTr s tk with
            | none => false
            | some t => t.st == .opened
        some { s with sent := s.sent ++ (if isOpen then [.pingF r.id] else []) }
      else none

/-- Run a list of actions. -/
def run (s : PoolState) : List PoolAction → Option PoolState
  | [] => some s
  | a :: rest =>
    match step a s with
    | none => none
    | some s' => run s' rest

/-- States reachable from the fresh node. -/
inductive Reach (cfg : NodeConfig) : PoolState → Prop where
  | init : Reach cfg (initState cfg)
  | next {s s' : PoolState} {a : PoolAction} :
      Reach cfg s → step a s = some s' → Reach cfg s'

/-! ## State invariants -/

/-- A transport that can still complete an open handshake or carry traffic:
an open socket, or a handshaking socket with no local close requested and no
rejected handshake. -/
def liveT (t : Transport) : Prop :=
  t.st = .opened ∨ (t.st = .connecting ∧ t.closeRequested = false ∧ t.rejected = false)

/-- Every record bound to the name `n` — the current one and any replaced or
deleted predecessors still referenced by socket handlers — is manually
closed. -/
def AllClosed (n : String) (rs : List ConnRec) : Prop :=
  ∀ r ∈ rs, r.id = n → r.manualClose = true

/-- The state invariant of the pool, over the registry bindings `cs`, the
records `rs`, the transports `ts` and the serial counter `ns`. -/
structure InvOn (cs : List (String × ℕ)) (rs : List ConnRec)
    (ts : List Transport) (ns : ℕ) : Prop where
  connNodup : (cs.map (fun p => p.1)).Nodup
  recNodup : (rs.map (fun r => r.serial)).Nodup
  trNodup : (ts.map (fun t => t.serial)).Nodup
  recLt : ∀ r ∈ rs, r.serial < ns
  trLt : ∀ t ∈ ts, t.serial < ns
  ownerLt : ∀ t ∈ ts, t.owner < ns
  wsSound : ∀ r ∈ rs, ∀ tk : ℕ, r.ws = some tk →
    ∃ t ∈ ts, t.serial = tk ∧ t.owner = r.serial
  unregClosed : ∀ r ∈ rs, lookupKey cs r.id ≠ some r.serial → r.manualClose = true
  closedQuiet : ∀ r ∈ rs, r.manualClose = true →
    r.reconnectTimer = false ∧ r.pingTimer = false ∧
      ∀ t ∈ ts, t.owner = r.serial → ¬ liveT t
  detachedClosed : ∀ t ∈ ts, ∀ r ∈ rs, r.serial = t.owner →
    r.ws ≠ some t.serial → t.st = .closed
  pingIff : ∀ r ∈ rs, r.pingTimer = true ↔
    (r.pingInterval > 0 ∧ ∃ t ∈ ts, r.ws = some t.serial ∧
      t.owner = r.serial ∧ t.st = .opened)
  reconClosed : ∀ r ∈ rs, r.reconnectTimer = true →
    ∀ t ∈ ts, t.owner = r.serial → t.st = .closed

/-- The state invariant of the pool. -/
def Inv (s : PoolState) : Prop :=
  InvOn s.connections s.recs s.transports s.nextSerial

/-- At most one live transport serves the name `n`: any two live transports
owned by records bound to `n` coincide. -/
def AtMostOneLive (s : PoolState) (n : String) : Prop :=
  ∀ t₁ ∈ s.transports, ∀ t₂ ∈ s.transports,
    liveT t₁ → liveT t₂ →
    (∀ r ∈ s.recs, r.serial = t₁.owner → r.id = n) →
    (∃ r ∈ s.recs, r.serial = t₁.owner) →
    (∀ r ∈ s.recs, r.serial = t₂.owner → r.id = n) →
    (∃ r ∈ s.recs, r.serial = t₂.owner) →
    t₁ = t₂

/-! ## Concrete fixtures used by the concrete-execution theorems -/

/-- Default-ish node configuration. -/
def exCfg : NodeConfig := { pingIntervalDefault := 30000, timeoutMs := 10000 }

/-- Minimal endpoint options. -/
def exOpts : CreateOpts := { url := "ws://x" }

/-- Endpoint options carrying TLS material, SNI override, proxy, disabled
compression and a per-entry handshake timeout (possible via the declarative
startup configuration, which passes full option objects to
`openConnection`). -/
def exTlsOpts : CreateOpts :=
  { url := "wss://y"
    ca := some "CApem"
    cert := some "CERTpem"
    key := some "KEYpem"
    passphrase := some "pw"
    servername := some "sni.example"
    proxy := some "http://proxy:3128"
    perMessageDeflate := some false
    handshakeTimeout := some 5000 }

/-- Dial options `openConnection` builds from `exOpts`. -/
def exDial : CtorOpts :=
  { headers := []
    rejectUnauthorized := true
    ca := none
    cert := none
    key := none
    passphrase := none
    servername := none
    handshakeTimeout := none
    perMessageDeflate := some true
    agent := none }

/-- Record fixture for a connection created from `exTlsOpts`. -/
def exTlsRec : ConnRec :=
  { serial := 0
    id := "a"
    url := "wss://y"
    protocols := none
    headers := buildHeaders exTlsOpts
    opts := exTlsOpts
    ws := none
    pingInterval := 30000
    pingTimer := false
    reconnectAttempts := 0
    manualClose := false
    reconnectTimer := false }

/-- Record fixture for a connection created from `exOpts`. -/
def exRec (serial : ℕ) (n : String) (tk : ℕ) (pt mc : Bool) : ConnRec :=
  { serial := serial
    id := n
    url := "ws://x"
    protocols := none
    headers := []
    opts := exOpts
    ws := some tk
    pingInterval := 30000
    pingTimer := pt
    reconnectAttempts := 0
    manualClose := mc
    reconnectTimer := false }

/-- Transport fixture dialed from `exOpts`. -/
def exTr (serial owner : ℕ) (st : WsState) (cr rej : Bool) : Transport :=
  { serial := serial
    owner := owner
    st := st
    closeRequested := cr
    rejected := rej
    dialOpts := exDial }

/-- State after `create{id:"a"}` followed by the socket opening. -/
def stAO : PoolState :=
  { cfg := exCfg
    connections := [("a", 0)]
    recs := [exRec 0 "a" 1 true false]
    transports := [exTr 1 0 .opened false false]
    nextSerial := 2
    trace := [.ack "create" "a", .openEv "a" "ws://x"]
    sent := []
    warns := [] }

/-- State after `create{id:"a"}`, socket open, then `close{id:"a"}`. -/
def stClosedA : PoolState :=
  { cfg := exCfg
    connections := [("a", 0)]
    recs := [exRec 0 "a" 1 false true]
    transports := [exTr 1 0 .closing false false]
    nextSerial := 2
    trace := [.ack "create" "a", .openEv "a" "ws://x", .ack "close" "a"]
    sent := []
    warns := [] }

/-- State after `create{id:"a"}` and `create{id:"b"}` (both dialing). -/
def stAB0 : PoolState :=
  { cfg := exCfg
    connections := [("a", 0), ("b", 2)]
    recs := [exRec 0 "a" 1 false false, exRec 2 "b" 3 false false]
    transports := [exTr 1 0 .connecting false false, exTr 3 2 .connecting false false]
    nextSerial := 4
    trace := [.ack "create" "a", .ack "create" "b"]
    sent := []
    warns := [] }

/-- State after `create{id:"a"}` and a handshake rejected with HTTP 403:
the error event went out and the socket is wedged (`rejected`). -/
def stRej (hdrs : List (String × String)) (body : String) : PoolState :=
  { cfg := exCfg
    connections := [("a", 0)]
    recs := [exRec 0 "a" 1 false false]
    transports := [exTr 1 0 .connecting false true]
    nextSerial := 2
    trace := [.ack "create" "a", .httpErrorEv "a" 403 hdrs (jsSlice 2048 body)]
    sent := []
    warns := [] }

/-- State after `create{id:"a"}` (still dialing). -/
def stA1 : PoolState :=
  { cfg := exCfg
    connections := [("a", 0)]
    recs := [exRec 0 "a" 1 false false]
    transports := [exTr 1 0 .connecting false false]
    nextSerial := 2
    trace := [.ack "create" "a"]
    sent := []
    warns := [] }

/-- State after `create{id:"a"}`, socket open, then a second `create{id:"a"}`:
the old entry is muted and detached, the new one is dialing. -/
def stA2 : PoolState :=
  { cfg := exCfg
    connections := [("a", 2)]
    recs := [exRec 0 "a" 1 false true, exRec 2 "a" 3 false false]
    transports := [exTr 1 0 .closing false false, exTr 3 2 .connecting false false]
    nextSerial := 4
    trace := [.ack "create" "a", .openEv "a" "ws://x", .ack "create" "a"]
    sent := []
    warns := [] }

/-- `stClosedA` after the closing socket finally reports its close. -/
def stClosedA2 : PoolState :=
  { cfg := exCfg
    connections := [("a", 0)]
    recs := [exRec 0 "a" 1 false true]
    transports := [exTr 1 0 .closed false false]
    nextSerial := 2
    trace := [.ack "create" "a", .openEv "a" "ws://x", .ack "close" "a",
      .closeEv "a" 1000 "bye" "ws://x"]
    sent := []
    warns := [] }

/-! ## Theorems -/

set_option maxRecDepth 4000

/-! ### Basic lemmas about the list helpers -/

theorem findRec_mem {s : PoolState} {k : ℕ} {r : ConnRec}
    (h : findRec s k = some r) : r ∈ s.recs ∧ r.serial = k :=
  ⟨List.mem_of_find?_eq_some h, by simpa using List.find?_some h⟩

theorem findTr_mem {s : PoolState} {k : ℕ} {t : Transport}
    (h : findTr s k = some t) : t ∈ s.transports ∧ t.serial = k :=
  ⟨List.mem_of_find?_eq_some h, by simpa using List.find?_some h⟩

theorem lookupKey_mem {cs : List (String × ℕ)} {n : String} {k : ℕ}
    (h : lookupKey cs n = some k) : (n, k) ∈ cs := by
  unfold lookupKey at h
  cases hf : cs.find? (fun p => p.1 = n) with
  | none => simp [hf] at h
  | some p =>
    have hm := List.mem_of_find?_eq_some hf
    have hp : p.1 = n := by simpa using List.find?_some hf
    simp only [hf, Option.map_some] at h
    obtain rfl : p.2 = k := by simpa using h
    rw [← hp]
    exact hm

theorem mem_updRec {k : ℕ} {f : ConnRec → ConnRec} {rs : List ConnRec} {x : ConnRec}
    (hx : x ∈ updRec k f rs) : ∃ r ∈ rs, x = if r.serial = k then f r else r := by
  obtain ⟨r, hr, he⟩ := List.mem_map.mp hx
  exact ⟨r, hr, he.symm⟩

theorem updRec_mem {k : ℕ} {f : ConnRec → ConnRec} {rs : List ConnRec} {r : ConnRec}
    (hr : r ∈ rs) : (if r.serial = k then f r else r) ∈ updRec k f rs :=
  List.mem_map.mpr ⟨r, hr, rfl⟩

theorem mem_updTr {k : ℕ} {f : Transport → Transport} {ts : List Transport} {x : Transport}
    (hx : x ∈ updTr k f ts) : ∃ t ∈ ts, x = if t.serial = k then f t else t := by
  obtain ⟨t, ht, he⟩ := List.mem_map.mp hx
  exact ⟨t, ht, he.symm⟩

theorem updTr_mem {k : ℕ} {f : Transport → Transport} {ts : List Transport} {t : Transport}
    (ht : t ∈ ts) : (if t.serial = k then f t else t) ∈ updTr k f ts :=
  List.mem_map.mpr ⟨t, ht, rfl⟩

theorem mem_updRec_cases {k : ℕ} {f : ConnRec → ConnRec} {rs : List ConnRec} {x : ConnRec}
    (hx : x ∈ updRec k f rs) :
    (∃ r ∈ rs, r.serial = k ∧ x = f r) ∨ (∃ r ∈ rs, r.serial ≠ k ∧ x = r) := by
  obtain ⟨r, hr, he⟩ := List.mem_map.mp hx
  by_cases hk : r.serial = k
  · left
    exact ⟨r, hr, hk, by rw [← he, if_pos hk]⟩
  · right
    exact ⟨r, hr, hk, by rw [← he, if_neg hk]⟩

theorem mem_updTr_cases {k : ℕ} {f : Transport → Transport} {ts : List Transport} {x : Transport}
    (hx : x ∈ updTr k f ts) :
    (∃ t ∈ ts, t.serial = k ∧ x = f t) ∨ (∃ t ∈ ts, t.serial ≠ k ∧ x = t) := by
  obtain ⟨t, ht, he⟩ := List.mem_map.mp hx
  by_cases hk : t.serial = k
  · left
    exact ⟨t, ht, hk, by rw [← he, if_pos hk]⟩
  · right
    exact ⟨t, ht, hk, by rw [← he, if_neg hk]⟩

theorem updRec_mem_eq {k : ℕ} {f : ConnRec → ConnRec} {rs : List ConnRec} {r : ConnRec}
    (hr : r ∈ rs) (hk : r.serial = k) : f r ∈ updRec k f rs := by
  have h := updRec_mem (k := k) (f := f) hr
  rwa [if_pos hk] at h

theorem updRec_mem_ne {k : ℕ} {f : ConnRec → ConnRec} {rs : List ConnRec} {r : ConnRec}
    (hr : r ∈ rs) (hk : r.serial ≠ k) : r ∈ updRec k f rs := by
  have h := updRec_mem (k := k) (f := f) hr
  rwa [if_neg hk] at h

theorem updTr_mem_eq {k : ℕ} {f : Transport → Transport} {ts : List Transport} {t : Transport}
    (ht : t ∈ ts) (hk : t.serial = k) : f t ∈ updTr k f ts := by
  have h := updTr_mem (k := k) (f := f) ht
  rwa [if_pos hk] at h

theorem updTr_mem_ne {k : ℕ} {f : Transport → Transport} {ts : List Transport} {t : Transport}
    (ht : t ∈ ts) (hk : t.serial ≠ k) : t ∈ updTr k f ts := by
  have h := updTr_mem (k := k) (f := f) ht
  rwa [if_neg hk] at h

theorem map_serial_updRec (k : ℕ) (f : ConnRec → ConnRec)
    (hf : ∀ r, (f r).serial = r.serial) (rs : List ConnRec) :
    (updRec k f rs).map (fun r => r.serial) = rs.map (fun r => r.serial) := by
  simp only [updRec, List.map_map]
  exact List.map_congr_left (fun r _ => by by_cases h : r.serial = k <;> simp [h, hf])

theorem map_serial_updTr (k : ℕ) (f : Transport → Transport)
    (hf : ∀ t, (f t).serial = t.serial) (ts : List Transport) :
    (updTr k f ts).map (fun t => t.serial) = ts.map (fun t => t.serial) := by
  simp only [updTr, List.map_map]
  exact List.map_congr_left (fun t _ => by by_cases h : t.serial = k <;> simp [h, hf])

theorem rec_serial_inj {s : PoolState} (I : Inv s) {r r' : ConnRec}
    (h : r ∈ s.recs) (h' : r' ∈ s.recs) (e : r.serial = r'.serial) : r = r' :=
  List.inj_on_of_nodup_map I.recNodup h h' e

theorem tr_serial_inj {s : PoolState} (I : Inv s) {t t' : Transport}
    (h : t ∈ s.transports) (h' : t' ∈ s.transports) (e : t.serial = t'.serial) : t = t' :=
  List.inj_on_of_nodup_map I.trNodup h h' e

theorem not_liveT_closeTr (t : Transport) : ¬ liveT (closeTr t) := by
  unfold closeTr liveT
  cases h : t.st <;> simp [h]

theorem closeTr_serial (t : Transport) : (closeTr t).serial = t.serial := by
  unfold closeTr
  cases t.st <;> rfl

theorem closeTr_owner (t : Transport) : (closeTr t).owner = t.owner := by
  unfold closeTr
  cases t.st <;> rfl

theorem closeTr_st_ne_opened (t : Transport) : (closeTr t).st ≠ .opened := by
  unfold closeTr
  cases h : t.st <;> simp [h]

theorem closeTr_of_closed {t : Transport} (h : t.st = .closed) : closeTr t = t := by
  unfold closeTr
  rw [h]

theorem liveT_of_connecting {t : Transport} (h1 : t.st = .connecting)
    (h2 : t.closeRequested = false) (h3 : t.rejected = false) : liveT t :=
  Or.inr ⟨h1, h2, h3⟩

theorem liveT_of_opened {t : Transport} (h : t.st = .opened) : liveT t := Or.inl h

/-- C3 (amended): with the clamped configuration `0 ≤ reconnectMin ≤
reconnectMax`, every computed delay lies in `[reconnectMin, reconnectMax]`
for every attempt and every jitter draw from `[0, base/4]`; and whenever
`reconnectMin > 0`, the delay saturates at exactly `reconnectMax` from some
attempt on. -/
theorem nextBackoff_spec (rmin rmax : ℚ) (h0 : 0 ≤ rmin) (h1 : rmin ≤ rmax) :
    (∀ (attempt : ℕ) (jitter : ℚ), 0 ≤ jitter →
      jitter ≤ min rmax (rmin * 2 ^ attempt) / 4 →
      rmin ≤ nextBackoff rmin rmax attempt jitter ∧
        nextBackoff rmin rmax attempt jitter ≤ rmax) ∧
    (0 < rmin → ∃ A : ℕ, ∀ a ≥ A, ∀ jitter : ℚ, 0 ≤ jitter →
      jitter ≤ min rmax (rmin * 2 ^ a) / 4 →
      nextBackoff rmin rmax a jitter = rmax) := by
  constructor
  · intro attempt jitter hj0 _
    have h2 : (1 : ℚ) ≤ 2 ^ attempt := one_le_pow₀ (by norm_num)
    have hmul : rmin ≤ rmin * 2 ^ attempt := by nlinarith
    have hbase : rmin ≤ min rmax (rmin * 2 ^ attempt) := le_min h1 hmul
    constructor
    · exact le_min h1 (by linarith)
    · exact min_le_left _ _
  · intro hpos
    obtain ⟨A, hA⟩ := pow_unbounded_of_one_lt (α := ℚ) (y := 2) (rmax / rmin) (by norm_num)
    refine ⟨A, fun a ha jitter hj0 _ => ?_⟩
    have h2A : (2 : ℚ) ^ A ≤ 2 ^ a := by
      apply pow_le_pow_right₀ (by norm_num) ha
    have hlt : rmax < rmin * 2 ^ a := by
      have := (div_lt_iff₀ hpos).mp (lt_of_lt_of_le hA h2A)
      linarith [this]
    have hb : min rmax (rmin * 2 ^ a) = rmax := min_eq_left (le_of_lt hlt)
    simp only [nextBackoff, hb]
    exact min_eq_left (by linarith)

/-- Witness for `nextBackoff_spec` at `reconnectMin = 1000`,
`reconnectMax = 30000`. -/
theorem nextBackoff_spec_witness :
    (∀ (attempt : ℕ) (jitter : ℚ), 0 ≤ jitter →
      jitter ≤ min 30000 (1000 * 2 ^ attempt) / 4 →
      (1000 : ℚ) ≤ nextBackoff 1000 30000 attempt jitter ∧
        nextBackoff 1000 30000 attempt jitter ≤ 30000) ∧
    ((0 : ℚ) < 1000 → ∃ A : ℕ, ∀ a ≥ A, ∀ jitter : ℚ, 0 ≤ jitter →
      jitter ≤ min 30000 (1000 * 2 ^ a) / 4 →
      nextBackoff 1000 30000 a jitter = 30000) :=
  nextBackoff_spec 1000 30000 (by norm_num) (by norm_num)

/-- C3 counterexample: a negative configured minimum is clamped to
`reconnectMin = 0`, a legal clamped configuration; then every backoff delay is
`0` and the delay never saturates at `reconnectMax = 30000`, refuting the
claim's saturation clause for general clamped configurations. -/
theorem nextBackoff_cex :
    reconnectMinCfg (some (-5)) = 0 ∧ reconnectMaxCfg 0 (some 30000) = 30000 ∧
    ¬ (∃ A : ℕ, ∀ a ≥ A, ∀ jitter : ℚ, 0 ≤ jitter →
        jitter ≤ min 30000 (0 * 2 ^ a) / 4 →
        nextBackoff 0 30000 a jitter = 30000) := by
  refine ⟨by norm_num [reconnectMinCfg, clampReconnectMin, jsOrQ],
    by norm_num [reconnectMaxCfg, clampReconnectMax, jsOrQ], ?_⟩
  rintro ⟨A, hA⟩
  have h := hA A le_rfl 0 le_rfl (by norm_num)
  have hz : nextBackoff 0 30000 A 0 = 0 := by
    simp [nextBackoff]
  rw [hz] at h
  norm_num at h

/-- C5: a send to a name with no registry entry, no socket, or a socket that
is not `Open` never throws (the model is a total function), transmits no
frame, emits no event, and reports exactly one warning. -/
theorem sendTo_not_open (s : PoolState) (n : String) (p : Payload)
    (h : openTransport s n = none) :
    (sendTo s n p).sent = s.sent ∧ (sendTo s n p).trace = s.trace ∧
      (sendTo s n p).warns = s.warns ++ ["send failed: " ++ n ++ " not open"] := by
  simp [sendTo, h]

/-- Witness for `sendTo_not_open`: sending to the absent name `"a"` on a
fresh node. -/
theorem sendTo_not_open_witness :
    (sendTo (initState exCfg) "a" (.str "hi")).sent = (initState exCfg).sent ∧
      (sendTo (initState exCfg) "a" (.str "hi")).trace = (initState exCfg).trace ∧
      (sendTo (initState exCfg) "a" (.str "hi")).warns =
        (initState exCfg).warns ++ ["send failed: " ++ "a" ++ " not open"] :=
  sendTo_not_open (initState exCfg) "a" (.str "hi") rfl

/-- C6: a send against an `Open` entry transmits the compact JSON encoding of
a structured payload as a text frame, and transmits a raw-bytes payload as a
binary frame with exactly those bytes. -/
theorem sendTo_open_frames (s : PoolState) (n : String) (t : Transport)
    (h : openTransport s n = some t) :
    (∀ j : JVal, (sendTo s n (.obj j)).sent = s.sent ++ [.textF n (stringifyJ j)]) ∧
    (∀ b : List ℕ, (sendTo s n (.buf b)).sent = s.sent ++ [.binaryF n b]) := by
  constructor
  · intro j
    simp [sendTo, h, encodeFrame]
  · intro b
    simp [sendTo, h, encodeFrame]

/-- Witness for `sendTo_open_frames`: on an open `"a"`,
`send("a", {"foo":1})` transmits the text frame `{"foo":1}` and
`send("a", Buffer [7,8])` transmits exactly those bytes. -/
theorem sendTo_open_frames_witness :
    (sendTo stAO "a" (.obj (.jobj (.cons "foo" (.jnum "1") .nil)))).sent =
      [.textF "a" "\x7b\"foo\":1\x7d"] ∧
    (sendTo stAO "a" (.buf [7, 8])).sent = [.binaryF "a" [7, 8]] := by
  have h := sendTo_open_frames stAO "a" (exTr 1 0 .opened false false) rfl
  exact ⟨by simpa using h.1 (.jobj (.cons "foo" (.jnum "1") .nil)), by simpa using h.2 [7, 8]⟩

/-- C7: an inbound binary frame is emitted as the raw bytes unchanged; an
inbound text frame is decoded as structured data exactly when the trimmed
text is bracketed as a JSON object/array and parses — otherwise, including
every parse failure, the original text is emitted unchanged. -/
theorem inbound_message_decode :
    (∀ (b : List ℕ) (isBin : Bool), inboundPayload (.bytes b) isBin = .buf b) ∧
    (∀ s : String, bracketedJS (trimJS s) = false →
      inboundPayload (.strData s) false = .str s) ∧
    (∀ s : String, bracketedJS (trimJS s) = true → jparse (trimJS s) = none →
      inboundPayload (.strData s) false = .str s) ∧
    (∀ (s : String) (v : JVal), bracketedJS (trimJS s) = true →
      jparse (trimJS s) = some v → inboundPayload (.strData s) false = .obj v) := by
  refine ⟨fun b isBin => rfl, ?_, ?_, ?_⟩
  · intro s h
    by_cases h0 : trimJS s = "" <;> simp [inboundPayload, parseMaybeJSON, h0, h]
  · intro s h hp
    have h0 : ¬ trimJS s = "" := by
      intro h0
      rw [h0] at h
      simp [bracketedJS, headIs] at h
    simp [inboundPayload, parseMaybeJSON, h0, h, hp]
  · intro s v h hp
    have h0 : ¬ trimJS s = "" := by
      intro h0
      rw [h0] at h
      simp [bracketedJS, headIs] at h
    simp [inboundPayload, parseMaybeJSON, h0, h, hp]

/-- Witness for `inbound_message_decode`: a binary frame passes through; the
unbracketed text `"hello"` passes through; the bracketed but malformed text
`"{]"` passes through after the parse failure; the array text `" [1,2] "`
decodes. -/
theorem inbound_message_decode_witness :
    inboundPayload (.bytes [7, 8]) true = .buf [7, 8] ∧
    inboundPayload (.strData "hello") false = .str "hello" ∧
    inboundPayload (.strData "[1,]") false = .str "[1,]" ∧
    inboundPayload (.strData " [1,2] ") false =
      .obj (.jarr (.cons (.jnum "1") (.cons (.jnum "2") .nil))) :=
  ⟨inbound_message_decode.1 [7, 8] true,
    inbound_message_decode.2.1 "hello" rfl,
    inbound_message_decode.2.2.1 "[1,]" rfl rfl,
    inbound_message_decode.2.2.2 " [1,2] " (.jarr (.cons (.jnum "1") (.cons (.jnum "2") .nil)))
      rfl rfl⟩

/-- C10: a reconnect dial (the fallback constructor options of `connect`,
used when the reconnect timer calls `connect(rec)` without options) uses only
the record's stored headers, its stored `rejectUnauthorized` flag and the
node-level handshake timeout; the TLS material, SNI override, proxy agent,
per-message-compression choice and per-entry handshake timeout that the
initial dial options carry are all absent. The last conjunct ties the
fallback options to the machine: every `fireReconnect` step dials a socket
carrying exactly `reconnectDialOpts`. -/
theorem reconnect_dial_only_stored (o : CreateOpts) (nodeT : ℕ) (r : ConnRec)
    (hh : r.headers = buildHeaders o) (ho : r.opts = o) :
    (reconnectDialOpts r nodeT).headers = (buildWsOptions o).headers ∧
    (reconnectDialOpts r nodeT).rejectUnauthorized = (buildWsOptions o).rejectUnauthorized ∧
    (reconnectDialOpts r nodeT).handshakeTimeout = some nodeT ∧
    (reconnectDialOpts r nodeT).ca = none ∧
    (reconnectDialOpts r nodeT).cert = none ∧
    (reconnectDialOpts r nodeT).key = none ∧
    (reconnectDialOpts r nodeT).passphrase = none ∧
    (reconnectDialOpts r nodeT).servername = none ∧
    (reconnectDialOpts r nodeT).agent = none ∧
    (reconnectDialOpts r nodeT).perMessageDeflate = none ∧
    (buildWsOptions o).ca = o.ca ∧
    (buildWsOptions o).cert = o.cert ∧
    (buildWsOptions o).key = o.key ∧
    (buildWsOptions o).passphrase = o.passphrase ∧
    (buildWsOptions o).servername = o.servername ∧
    (buildWsOptions o).agent = o.proxy ∧
    (buildWsOptions o).perMessageDeflate = some (o.perMessageDeflate.getD true) ∧
    (buildWsOptions o).handshakeTimeout = orFalsyNat o.handshakeTimeout o.timeoutMs ∧
    (∀ (s : PoolState) (k : ℕ), findRec s k = some r → r.reconnectTimer = true →
      ∃ s', step (.fireReconnect k) s = some s' ∧
        s'.transports = s.transports ++
          [{ serial := s.nextSerial
             owner := k
             st := .connecting
             closeRequested := false
             rejected := false
             dialOpts := reconnectDialOpts r s.cfg.timeoutMs }]) := by
  refine ⟨hh, by rw [show (reconnectDialOpts r nodeT).rejectUnauthorized =
      rejectUnauthorizedFlag r.opts.rejectUnauthorized from rfl, ho]; rfl,
    rfl, rfl, rfl, rfl, rfl, rfl, rfl, rfl, rfl, rfl, rfl, rfl, rfl, rfl, rfl, rfl, ?_⟩
  intro s k hfind htimer
  have hstep : step (.fireReconnect k) s = some
      { s with
        recs := updRec k (fun u =>
          { u with reconnectTimer := false, ws := some s.nextSerial }) s.recs
        transports := s.transports ++
          [{ serial := s.nextSerial
             owner := k
             st := .connecting
             closeRequested := false
             rejected := false
             dialOpts := reconnectDialOpts r s.cfg.timeoutMs }]
        nextSerial := s.nextSerial + 1 } := by
    simp [step, hfind, htimer]
  exact ⟨_, hstep, rfl⟩

/-- Witness for `reconnect_dial_only_stored` on an endpoint configured with
TLS material, SNI override, proxy, disabled compression and a per-entry
handshake timeout: the reconnect dial drops all of them. -/
theorem reconnect_dial_only_stored_witness :
    (reconnectDialOpts exTlsRec 10000).headers = (buildWsOptions exTlsOpts).headers ∧
    (reconnectDialOpts exTlsRec 10000).rejectUnauthorized =
      (buildWsOptions exTlsOpts).rejectUnauthorized ∧
    (reconnectDialOpts exTlsRec 10000).handshakeTimeout = some 10000 ∧
    (reconnectDialOpts exTlsRec 10000).ca = none ∧
    (reconnectDialOpts exTlsRec 10000).cert = none ∧
    (reconnectDialOpts exTlsRec 10000).key = none ∧
    (reconnectDialOpts exTlsRec 10000).passphrase = none ∧
    (reconnectDialOpts exTlsRec 10000).servername = none ∧
    (reconnectDialOpts exTlsRec 10000).agent = none ∧
    (reconnectDialOpts exTlsRec 10000).perMessageDeflate = none ∧
    (buildWsOptions exTlsOpts).ca = exTlsOpts.ca ∧
    (buildWsOptions exTlsOpts).cert = exTlsOpts.cert ∧
    (buildWsOptions exTlsOpts).key = exTlsOpts.key ∧
    (buildWsOptions exTlsOpts).passphrase = exTlsOpts.passphrase ∧
    (buildWsOptions exTlsOpts).servername = exTlsOpts.servername ∧
    (buildWsOptions exTlsOpts).agent = exTlsOpts.proxy ∧
    (buildWsOptions exTlsOpts).perMessageDeflate =
      some (exTlsOpts.perMessageDeflate.getD true) ∧
    (buildWsOptions exTlsOpts).handshakeTimeout =
      orFalsyNat exTlsOpts.handshakeTimeout exTlsOpts.timeoutMs ∧
    (∀ (s : PoolState) (k : ℕ), findRec s k = some exTlsRec →
      exTlsRec.reconnectTimer = true →
      ∃ s', step (.fireReconnect k) s = some s' ∧
        s'.transports = s.transports ++
          [{ serial := s.nextSerial
             owner := k
             st := .connecting
             closeRequested := false
             rejected := false
             dialOpts := reconnectDialOpts exTlsRec s.cfg.timeoutMs }]) :=
  reconnect_dial_only_stored exTlsOpts 10000 exTlsRec rfl rfl

/-- C1 counterexample: `create{id:"a"}` over the existing open `"a"` tears the
old socket down silently at command time, but when the old socket finishes
closing its handler still emits a `close` event tagged `"a"` — after the new
entry's `open` event. This refutes "no event is emitted for that implicit
close, and no further events are emitted from the old transport once the new
entry's events begin". -/
theorem create_replace_emits_close_cex :
    run (initState exCfg) [.cmdCreate "a" exOpts, .wsOpen 1] = some stAO ∧
    (run stAO [.cmdCreate "a" exOpts, .wsOpen 3,
        .wsClose 1 1000 "closed by node-red"]).map (fun s => s.trace) =
      some [.ack "create" "a", .openEv "a" "ws://x", .ack "create" "a",
        .openEv "a" "ws://x", .closeEv "a" 1000 "closed by node-red" "ws://x"] :=
  ⟨rfl, rfl⟩

/-- C4: the input routing has no broadcast address. With `"a"` and `"b"` both
`Open`, a message addressed to `"*"` (the README's broadcast id) is looked up
as an ordinary name, fails as not-open with a warning, and transmits nothing
to either open connection — diverging from the documented broadcast
behaviour. -/
theorem broadcast_unimplemented :
    run (initState exCfg) [.cmdCreate "a" exOpts, .cmdCreate "b" exOpts] = some stAB0 ∧
    (run stAB0 [.wsOpen 1, .wsOpen 3]).map (fun s =>
        ((openTransport s "a").map (fun t => t.serial),
          (openTransport s "b").map (fun t => t.serial))) =
      some (some 1, some 3) ∧
    (run stAB0 [.wsOpen 1, .wsOpen 3, .sendMsg "*" (.str "hello")]).map
        (fun s => (s.sent, s.warns)) =
      some ([], ["send failed: * not open"]) :=
  ⟨rfl, rfl, rfl⟩

/-- C8: a handshake rejected with HTTP 403 emits the error event carrying the
status code, the response headers and the body capped at 2048 — but the
handler never aborts the request, so (with the `'unexpected-response'`
listener registered) the `ws` client emits no `close` event for that socket:
no close can ever fire, no open can ever fire, no reconnect timer is armed
and the entry is wedged, contradicting the claimed close-then-reconnect. -/
theorem unexpected_response_wedges :
    (∀ (hdrs : List (String × String)) (body : String),
      run (initState exCfg)
        [.cmdCreate "a" exOpts, .wsUnexpected 1 403 hdrs body] = some (stRej hdrs body)) ∧
    (∀ (hdrs : List (String × String)) (body : String) (code : ℕ) (reason : String),
      step (.wsClose 1 code reason) (stRej hdrs body) = none) ∧
    (∀ (hdrs : List (String × String)) (body : String),
      step (.wsOpen 1) (stRej hdrs body) = none) ∧
    (∀ (hdrs : List (String × String)) (body : String),
      step (.fireReconnect 0) (stRej hdrs body) = none) ∧
    (stRej [("server", "nginx")] "forbidden").recs.map (fun r => r.reconnectTimer) = [false] ∧
    (stRej [("server", "nginx")] "forbidden").trace =
      [.ack "create" "a", .httpErrorEv "a" 403 [("server", "nginx")] "forbidden"] :=
  ⟨fun _ _ => rfl, fun _ _ _ _ => rfl, fun _ _ => rfl, fun _ _ => rfl, rfl, rfl⟩


theorem invOn_close_some {s : PoolState} (I : Inv s) {r : ConnRec} {tk : ℕ}
    (hrmem : r ∈ s.recs) (hws : r.ws = some tk) :
    InvOn s.connections (updRec r.serial closeRecFields s.recs)
      (updTr tk closeTr s.transports) s.nextSerial := by
  refine ⟨I.connNodup, ?_, ?_, ?_, ?_, ?_, ?_, ?_, ?_, ?_, ?_, ?_⟩
  · rw [map_serial_updRec r.serial closeRecFields (fun u => rfl)]
    exact I.recNodup
  · rw [map_serial_updTr tk closeTr closeTr_serial]
    exact I.trNodup
  · intro r' hr'
    rcases mem_updRec_cases hr' with ⟨r₀, h₀, hk, rfl⟩ | ⟨r₀, h₀, hk, rfl⟩
    · exact I.recLt r₀ h₀
    · exact I.recLt r' h₀
  · intro t' ht'
    rcases mem_updTr_cases ht' with ⟨t₀, h₀, hk, rfl⟩ | ⟨t₀, h₀, hk, rfl⟩
    · rw [closeTr_serial]
      exact I.trLt t₀ h₀
    · exact I.trLt t' h₀
  · intro t' ht'
    rcases mem_updTr_cases ht' with ⟨t₀, h₀, hk, rfl⟩ | ⟨t₀, h₀, hk, rfl⟩
    · rw [closeTr_owner]
      exact I.ownerLt t₀ h₀
    · exact I.ownerLt t' h₀
  · -- wsSound
    intro r' hr' tk' hws'
    have key : ∀ r₀ ∈ s.recs, r₀.ws = some tk' → r'.serial = r₀.serial →
        ∃ t ∈ updTr tk closeTr s.transports, t.serial = tk' ∧ t.owner = r'.serial := by
      intro r₀ h₀ hws0 hser
      obtain ⟨t, htmem, htser, htown⟩ := I.wsSound r₀ h₀ tk' hws0
      by_cases hkt : t.serial = tk
      · exact ⟨closeTr t, updTr_mem_eq htmem hkt, by rw [closeTr_serial, htser],
          by rw [closeTr_owner, htown, hser]⟩
      · exact ⟨t, updTr_mem_ne htmem hkt, htser, by rw [htown, hser]⟩
    rcases mem_updRec_cases hr' with ⟨r₀, h₀, hk, rfl⟩ | ⟨r₀, h₀, hk, rfl⟩
    · exact key r₀ h₀ hws' rfl
    · exact key r' h₀ hws' rfl
  · -- unregClosed
    intro r' hr' hlk
    rcases mem_updRec_cases hr' with ⟨r₀, h₀, hk, rfl⟩ | ⟨r₀, h₀, hk, rfl⟩
    · rfl
    · exact I.unregClosed r' h₀ hlk
  · -- closedQuiet
    intro r' hr' hmc
    rcases mem_updRec_cases hr' with ⟨r₀, h₀, hk, rfl⟩ | ⟨r₀, h₀, hk, rfl⟩
    · have hr0 : r₀ = r := rec_serial_inj I h₀ hrmem hk
      subst hr0
      refine ⟨rfl, rfl, ?_⟩
      intro t' ht' hown
      rcases mem_updTr_cases ht' with ⟨t₀, ht₀, hkt, rfl⟩ | ⟨t₀, ht₀, hkt, rfl⟩
      · exact not_liveT_closeTr t₀
      · have hdet : t'.st = .closed := by
          refine I.detachedClosed t' ht₀ r₀ h₀ hown.symm ?_
          rw [hws]
          intro hcon
          exact hkt (Option.some_inj.mp hcon).symm
        intro hl
        rcases hl with hl | ⟨hl, -, -⟩ <;> rw [hdet] at hl <;> exact WsState.noConfusion hl
    · obtain ⟨hrt, hpt, hq⟩ := I.closedQuiet r' h₀ hmc
      refine ⟨hrt, hpt, ?_⟩
      intro t' ht' hown
      rcases mem_updTr_cases ht' with ⟨t₀, ht₀, hkt, rfl⟩ | ⟨t₀, ht₀, hkt, rfl⟩
      · exact not_liveT_closeTr t₀
      · exact hq t' ht₀ hown
  · -- detachedClosed
    intro t' ht' r' hr' hser hnws
    rcases mem_updTr_cases ht' with ⟨t₀, ht₀, hkt, rfl⟩ | ⟨t₀, ht₀, hkt, rfl⟩
    · rcases mem_updRec_cases hr' with ⟨r₀, h₀, hk, rfl⟩ | ⟨r₀, h₀, hk, rfl⟩
      · have hr0 : r₀ = r := rec_serial_inj I h₀ hrmem hk
        subst hr0
        exfalso
        apply hnws
        show r₀.ws = some (closeTr t₀).serial
        rw [closeTr_serial, hkt, hws]
      · have h0 : t₀.st = .closed := by
          refine I.detachedClosed t₀ ht₀ r' h₀ ?_ ?_
          · rw [← closeTr_owner t₀]
            exact hser
          · rw [closeTr_serial] at hnws
            exact hnws
        rw [closeTr_of_closed h0]
        exact h0
    · rcases mem_updRec_cases hr' with ⟨r₀, h₀, hk, rfl⟩ | ⟨r₀, h₀, hk, rfl⟩
      · exact I.detachedClosed t' ht₀ r₀ h₀ hser hnws
      · exact I.detachedClosed t' ht₀ r' h₀ hser hnws
  · -- pingIff
    intro r' hr'
    rcases mem_updRec_cases hr' with ⟨r₀, h₀, hk, rfl⟩ | ⟨r₀, h₀, hk, rfl⟩
    · have hr0 : r₀ = r := rec_serial_inj I h₀ hrmem hk
      subst hr0
      constructor
      · intro hcon
        exact absurd hcon (by simp [closeRecFields])
      · rintro ⟨-, t', ht', hws', -, hst'⟩
        exfalso
        have hws2 : r₀.ws = some t'.serial := hws'
        rw [hws] at hws2
        have htks : t'.serial = tk := (Option.some_inj.mp hws2).symm
        rcases mem_updTr_cases ht' with ⟨t₀, ht₀, hkt, he⟩ | ⟨t₀, ht₀, hkt, he⟩
        · subst he
          exact closeTr_st_ne_opened t₀ hst'
        · subst he
          exact hkt htks
    · rw [I.pingIff r' h₀]
      constructor
      · rintro ⟨hpi, t₀, ht₀, hws0, hown0, hst0⟩
        have hne : t₀.serial ≠ tk := by
          intro hcon
          obtain ⟨t₂, ht₂, ht₂s, ht₂o⟩ := I.wsSound r hrmem tk hws
          have he2 : t₂ = t₀ := tr_serial_inj I ht₂ ht₀ (by rw [ht₂s, ← hcon])
          subst he2
          exact hk (by rw [← hown0, ht₂o])
        exact ⟨hpi, t₀, updTr_mem_ne ht₀ hne, hws0, hown0, hst0⟩
      · rintro ⟨hpi, t', ht', hws', hown', hst'⟩
        rcases mem_updTr_cases ht' with ⟨t₀, ht₀, hkt, he⟩ | ⟨t₀, ht₀, hkt, he⟩
        · subst he
          exact absurd hst' (closeTr_st_ne_opened t₀)
        · subst he
          exact ⟨hpi, t', ht₀, hws', hown', hst'⟩
  · -- reconClosed
    intro r' hr' hrt t' ht' hown
    rcases mem_updRec_cases hr' with ⟨r₀, h₀, hk, rfl⟩ | ⟨r₀, h₀, hk, rfl⟩
    · exact absurd hrt (by simp [closeRecFields])
    · rcases mem_updTr_cases ht' with ⟨t₀, ht₀, hkt, rfl⟩ | ⟨t₀, ht₀, hkt, rfl⟩
      · have h0 : t₀.st = .closed := by
          refine I.reconClosed r' h₀ hrt t₀ ht₀ ?_
          rw [← closeTr_owner t₀]
          exact hown
        rw [closeTr_of_closed h0]
        exact h0
      · exact I.reconClosed r' h₀ hrt t' ht₀ hown

theorem invOn_close_none {s : PoolState} (I : Inv s) {r : ConnRec}
    (hrmem : r ∈ s.recs) (hws : r.ws = none) :
    InvOn s.connections (updRec r.serial closeRecFields s.recs)
      s.transports s.nextSerial := by
  refine ⟨I.connNodup, ?_, I.trNodup, ?_, I.trLt, I.ownerLt, ?_, ?_, ?_, ?_, ?_, ?_⟩
  · rw [map_serial_updRec r.serial closeRecFields (fun u => rfl)]
    exact I.recNodup
  · intro r' hr'
    rcases mem_updRec_cases hr' with ⟨r₀, h₀, hk, rfl⟩ | ⟨r₀, h₀, hk, rfl⟩
    · exact I.recLt r₀ h₀
    · exact I.recLt r' h₀
  · -- wsSound
    intro r' hr' tk' hws'
    rcases mem_updRec_cases hr' with ⟨r₀, h₀, hk, rfl⟩ | ⟨r₀, h₀, hk, rfl⟩
    · exact I.wsSound r₀ h₀ tk' hws'
    · exact I.wsSound r' h₀ tk' hws'
  · -- unregClosed
    intro r' hr' hlk
    rcases mem_updRec_cases hr' with ⟨r₀, h₀, hk, rfl⟩ | ⟨r₀, h₀, hk, rfl⟩
    · rfl
    · exact I.unregClosed r' h₀ hlk
  · -- closedQuiet
    intro r' hr' hmc
    rcases mem_updRec_cases hr' with ⟨r₀, h₀, hk, rfl⟩ | ⟨r₀, h₀, hk, rfl⟩
    · have hr0 : r₀ = r := rec_serial_inj I h₀ hrmem hk
      subst hr0
      refine ⟨rfl, rfl, ?_⟩
      intro t' ht' hown
      have hdet : t'.st = .closed := by
        refine I.detachedClosed t' ht' r₀ h₀ hown.symm ?_
        rw [hws]
        exact fun hcon => Option.noConfusion hcon
      intro hl
      rcases hl with hl | ⟨hl, -, -⟩ <;> rw [hdet] at hl <;> exact WsState.noConfusion hl
    · exact I.closedQuiet r' h₀ hmc
  · -- detachedClosed
    intro t' ht' r' hr' hser hnws
    rcases mem_updRec_cases hr' with ⟨r₀, h₀, hk, rfl⟩ | ⟨r₀, h₀, hk, rfl⟩
    · exact I.detachedClosed t' ht' r₀ h₀ hser hnws
    · exact I.detachedClosed t' ht' r' h₀ hser hnws
  · -- pingIff
    intro r' hr'
    rcases mem_updRec_cases hr' with ⟨r₀, h₀, hk, rfl⟩ | ⟨r₀, h₀, hk, rfl⟩
    · have hr0 : r₀ = r := rec_serial_inj I h₀ hrmem hk
      subst hr0
      constructor
      · intro hcon
        exact absurd hcon (by simp [closeRecFields])
      · rintro ⟨-, t', -, hws', -, -⟩
        have hws2 : r₀.ws = some t'.serial := hws'
        rw [hws] at hws2
        exact Option.noConfusion hws2
    · exact I.pingIff r' h₀
  · -- reconClosed
    intro r' hr' hrt t' ht' hown
    rcases mem_updRec_cases hr' with ⟨r₀, h₀, hk, rfl⟩ | ⟨r₀, h₀, hk, rfl⟩
    · exact absurd hrt (by simp [closeRecFields])
    · exact I.reconClosed r' h₀ hrt t' ht' hown

theorem inv_applyClose (s : PoolState) (n : String) (I : Inv s) :
    Inv (applyCloseByName s n) := by
  unfold applyCloseByName
  split
  · exact I
  rename_i k hk
  split
  · exact I
  rename_i r hrf
  obtain ⟨hrmem, hrser⟩ := findRec_mem hrf
  subst hrser
  split
  · rename_i tk hws
    exact invOn_close_some I hrmem hws
  · rename_i hws
    exact invOn_close_none I hrmem hws



theorem invOn_upd_parts {s : PoolState} (I : Inv s) (k1 k2 : ℕ)
    (f : ConnRec → ConnRec) (g : Transport → Transport)
    (hfs : ∀ u, (f u).serial = u.serial) (hfw : ∀ u, (f u).ws = u.ws)
    (hgs : ∀ u, (g u).serial = u.serial) (hgo : ∀ u, (g u).owner = u.owner) :
    ((updRec k1 f s.recs).map (fun r => r.serial)).Nodup ∧
    ((updTr k2 g s.transports).map (fun t => t.serial)).Nodup ∧
    (∀ r ∈ updRec k1 f s.recs, r.serial < s.nextSerial) ∧
    (∀ t ∈ updTr k2 g s.transports, t.serial < s.nextSerial) ∧
    (∀ t ∈ updTr k2 g s.transports, t.owner < s.nextSerial) ∧
    (∀ r ∈ updRec k1 f s.recs, ∀ tk : ℕ, r.ws = some tk →
      ∃ t ∈ updTr k2 g s.transports, t.serial = tk ∧ t.owner = r.serial) := by
  refine ⟨?_, ?_, ?_, ?_, ?_, ?_⟩
  · rw [map_serial_updRec k1 f hfs]
    exact I.recNodup
  · rw [map_serial_updTr k2 g hgs]
    exact I.trNodup
  · intro r' hr'
    rcases mem_updRec_cases hr' with ⟨r₀, h₀, hk, rfl⟩ | ⟨r₀, h₀, hk, rfl⟩
    · rw [hfs]
      exact I.recLt r₀ h₀
    · exact I.recLt r' h₀
  · intro t' ht'
    rcases mem_updTr_cases ht' with ⟨t₀, h₀, hk, rfl⟩ | ⟨t₀, h₀, hk, rfl⟩
    · rw [hgs]
      exact I.trLt t₀ h₀
    · exact I.trLt t' h₀
  · intro t' ht'
    rcases mem_updTr_cases ht' with ⟨t₀, h₀, hk, rfl⟩ | ⟨t₀, h₀, hk, rfl⟩
    · rw [hgo]
      exact I.ownerLt t₀ h₀
    · exact I.ownerLt t' h₀
  · intro r' hr' tk hws'
    have key : ∀ r₀ ∈ s.recs, r₀.ws = some tk → r'.serial = r₀.serial →
        ∃ t ∈ updTr k2 g s.transports, t.serial = tk ∧ t.owner = r'.serial := by
      intro r₀ h₀ hws0 hser
      obtain ⟨t, htmem, htser, htown⟩ := I.wsSound r₀ h₀ tk hws0
      by_cases hkt : t.serial = k2
      · exact ⟨g t, updTr_mem_eq htmem hkt, by rw [hgs, htser],
          by rw [hgo, htown, hser]⟩
      · exact ⟨t, updTr_mem_ne htmem hkt, htser, by rw [htown, hser]⟩
    rcases mem_updRec_cases hr' with ⟨r₀, h₀, hk, rfl⟩ | ⟨r₀, h₀, hk, rfl⟩
    · exact key r₀ h₀ (by rw [← hfw r₀]; exact hws') (hfs r₀)
    · exact key r' h₀ hws' rfl

theorem unreg_upd {s : PoolState} (I : Inv s) (k1 : ℕ) (f : ConnRec → ConnRec)
    (hfs : ∀ u, (f u).serial = u.serial) (hfi : ∀ u, (f u).id = u.id)
    (hfm : ∀ u, (f u).manualClose = u.manualClose) :
    ∀ r ∈ updRec k1 f s.recs,
      lookupKey s.connections r.id ≠ some r.serial → r.manualClose = true := by
  intro r' hr' hlk
  rcases mem_updRec_cases hr' with ⟨r₀, h₀, hk, rfl⟩ | ⟨r₀, h₀, hk, rfl⟩
  · rw [hfm]
    refine I.unregClosed r₀ h₀ ?_
    rw [← hfi r₀, ← hfs r₀]
    exact hlk
  · exact I.unregClosed r' h₀ hlk

theorem invOn_wsOpen {s : PoolState} (I : Inv s) {t : Transport} {r : ConnRec}
    (htm : t ∈ s.transports) (hrm : r ∈ s.recs) (hro : r.serial = t.owner)
    (hg1 : t.st = .connecting) (hg2 : t.closeRequested = false) (hg3 : t.rejected = false) :
    InvOn s.connections
      (updRec t.owner (fun u =>
        { u with reconnectAttempts := 0, pingTimer := decide (u.pingInterval > 0) }) s.recs)
      (updTr t.serial (fun u => { u with st := .opened }) s.transports)
      s.nextSerial := by
  have hlive : liveT t := liveT_of_connecting hg1 hg2 hg3
  have hmc : r.manualClose = false := by
    cases hb : r.manualClose
    · rfl
    · exact absurd hlive ((I.closedQuiet r hrm hb).2.2 t htm hro.symm)
  have hrt : r.reconnectTimer = false := by
    cases hb : r.reconnectTimer
    · rfl
    · have := I.reconClosed r hrm hb t htm hro.symm
      rw [hg1] at this
      exact WsState.noConfusion this
  have hattach : r.ws = some t.serial := by
    by_contra hne
    have := I.detachedClosed t htm r hrm hro hne
    rw [hg1] at this
    exact WsState.noConfusion this
  obtain ⟨hN1, hN2, hL1, hL2, hO, hWs⟩ := invOn_upd_parts I t.owner t.serial
    (fun u => { u with reconnectAttempts := 0, pingTimer := decide (u.pingInterval > 0) })
    (fun u => { u with st := .opened })
    (fun u => rfl) (fun u => rfl) (fun u => rfl) (fun u => rfl)
  refine ⟨I.connNodup, hN1, hN2, hL1, hL2, hO, hWs, ?_, ?_, ?_, ?_, ?_⟩
  · exact unreg_upd I t.owner _ (fun u => rfl) (fun u => rfl) (fun u => rfl)
  · -- closedQuiet
    intro r' hr' hmc'
    rcases mem_updRec_cases hr' with ⟨r₀, h₀, hk, rfl⟩ | ⟨r₀, h₀, hk, rfl⟩
    · have hr0 : r₀ = r := rec_serial_inj I h₀ hrm (by rw [hk, ← hro])
      subst hr0
      have : r₀.manualClose = true := hmc'
      rw [hmc] at this
      exact Bool.noConfusion this
    · obtain ⟨hq1, hq2, hq3⟩ := I.closedQuiet r' h₀ hmc'
      refine ⟨hq1, hq2, ?_⟩
      intro t' ht' hown
      rcases mem_updTr_cases ht' with ⟨t₀, ht₀, hkt, rfl⟩ | ⟨t₀, ht₀, hkt, rfl⟩
      · have ht0 : t₀ = t := tr_serial_inj I ht₀ htm hkt
        subst ht0
        exfalso
        have hser : t₀.owner = r'.serial := hown
        have : r' = r := rec_serial_inj I h₀ hrm (by rw [← hser, hro])
        subst this
        rw [hmc] at hmc'
        exact Bool.noConfusion hmc'
      · exact hq3 t' ht₀ hown
  · -- detachedClosed
    intro t' ht' r' hr' hser hnws
    rcases mem_updTr_cases ht' with ⟨t₀, ht₀, hkt, rfl⟩ | ⟨t₀, ht₀, hkt, rfl⟩
    · have ht0 : t₀ = t := tr_serial_inj I ht₀ htm hkt
      subst ht0
      exfalso
      rcases mem_updRec_cases hr' with ⟨r₁, h₁, hk1, rfl⟩ | ⟨r₁, h₁, hk1, rfl⟩
      · have hr1 : r₁ = r := rec_serial_inj I h₁ hrm (by rw [hk1, ← hro])
        subst hr1
        apply hnws
        show r₁.ws = some t₀.serial
        exact hattach
      · have : r' = r := rec_serial_inj I h₁ hrm (by rw [hser, ← hro])
        subst this
        exact hk1 (by rw [hser])
    · rcases mem_updRec_cases hr' with ⟨r₁, h₁, hk1, rfl⟩ | ⟨r₁, h₁, hk1, rfl⟩
      · exact I.detachedClosed t' ht₀ r₁ h₁ hser hnws
      · exact I.detachedClosed t' ht₀ r' h₁ hser hnws
  · -- pingIff
    intro r' hr'
    rcases mem_updRec_cases hr' with ⟨r₀, h₀, hk, rfl⟩ | ⟨r₀, h₀, hk, rfl⟩
    · have hr0 : r₀ = r := rec_serial_inj I h₀ hrm (by rw [hk, ← hro])
      subst hr0
      constructor
      · intro hdec
        have hpi : r₀.pingInterval > 0 := by
          have : decide (r₀.pingInterval > 0) = true := hdec
          exact of_decide_eq_true this
        refine ⟨hpi, { t with st := .opened }, updTr_mem_eq htm rfl, ?_, ?_, rfl⟩
        · exact hattach
        · exact hro.symm
      · rintro ⟨hpi, -, -, -, -, -⟩
        show decide (r₀.pingInterval > 0) = true
        exact decide_eq_true hpi
    · rw [I.pingIff r' h₀]
      constructor
      · rintro ⟨hpi, t₀, ht₀, hws0, hown0, hst0⟩
        have hne : t₀.serial ≠ t.serial := by
          intro hcon
          have : t₀ = t := tr_serial_inj I ht₀ htm hcon
          subst this
          rw [hg1] at hst0
          exact WsState.noConfusion hst0
        exact ⟨hpi, t₀, updTr_mem_ne ht₀ hne, hws0, hown0, hst0⟩
      · rintro ⟨hpi, t', ht', hws', hown', hst'⟩
        rcases mem_updTr_cases ht' with ⟨t₀, ht₀, hkt, he⟩ | ⟨t₀, ht₀, hkt, he⟩
        · subst he
          exfalso
          have ht0 : t₀ = t := tr_serial_inj I ht₀ htm hkt
          subst ht0
          have hser : t₀.owner = r'.serial := hown'
          have : r' = r := rec_serial_inj I h₀ hrm (by rw [← hser, hro])
          subst this
          exact hk (by rw [hro])
        · subst he
          exact ⟨hpi, t', ht₀, hws', hown', hst'⟩
  · -- reconClosed
    intro r' hr' hrt' t' ht' hown
    rcases mem_updRec_cases hr' with ⟨r₀, h₀, hk, rfl⟩ | ⟨r₀, h₀, hk, rfl⟩
    · have hr0 : r₀ = r := rec_serial_inj I h₀ hrm (by rw [hk, ← hro])
      subst hr0
      exfalso
      have : r₀.reconnectTimer = true := hrt'
      rw [hrt] at this
      exact Bool.noConfusion this
    · rcases mem_updTr_cases ht' with ⟨t₀, ht₀, hkt, rfl⟩ | ⟨t₀, ht₀, hkt, rfl⟩
      · exfalso
        have ht0 : t₀ = t := tr_serial_inj I ht₀ htm hkt
        subst ht0
        have hser : t₀.owner = r'.serial := hown
        have : r' = r := rec_serial_inj I h₀ hrm (by rw [← hser, hro])
        subst this
        rw [hrt] at hrt'
        exact Bool.noConfusion hrt'
      · exact I.reconClosed r' h₀ hrt' t' ht₀ hown



theorem invOn_wsClose {s : PoolState} (I : Inv s) {t : Transport} {r : ConnRec}
    (htm : t ∈ s.transports) (hrm : r ∈ s.recs) (hro : r.serial = t.owner)
    (hg1 : t.st ≠ .closed) (hg3 : t.rejected = false) :
    InvOn s.connections
      (updRec t.owner (fun u =>
        if u.manualClose then { u with pingTimer := false }
        else
          { u with
            pingTimer := false
            reconnectTimer := true
            reconnectAttempts := u.reconnectAttempts + 1 }) s.recs)
      (updTr t.serial (fun u => { u with st := .closed }) s.transports)
      s.nextSerial := by
  have hattach : r.ws = some t.serial := by
    by_contra hne
    exact hg1 (I.detachedClosed t htm r hrm hro hne)
  have hfs : ∀ u : ConnRec,
      ((if u.manualClose then { u with pingTimer := false }
        else
          { u with
            pingTimer := false
            reconnectTimer := true
            reconnectAttempts := u.reconnectAttempts + 1 } : ConnRec)).serial = u.serial := by
    intro u
    by_cases h : u.manualClose <;> simp [h]
  have hfw : ∀ u : ConnRec,
      ((if u.manualClose then { u with pingTimer := false }
        else
          { u with
            pingTimer := false
            reconnectTimer := true
            reconnectAttempts := u.reconnectAttempts + 1 } : ConnRec)).ws = u.ws := by
    intro u
    by_cases h : u.manualClose <;> simp [h]
  have hfi : ∀ u : ConnRec,
      ((if u.manualClose then { u with pingTimer := false }
        else
          { u with
            pingTimer := false
            reconnectTimer := true
            reconnectAttempts := u.reconnectAttempts + 1 } : ConnRec)).id = u.id := by
    intro u
    by_cases h : u.manualClose <;> simp [h]
  have hfm : ∀ u : ConnRec,
      ((if u.manualClose then { u with pingTimer := false }
        else
          { u with
            pingTimer := false
            reconnectTimer := true
            reconnectAttempts := u.reconnectAttempts + 1 } : ConnRec)).manualClose = u.manualClose := by
    intro u
    by_cases h : u.manualClose <;> simp [h]
  have hfp : ∀ u : ConnRec,
      ((if u.manualClose then { u with pingTimer := false }
        else
          { u with
            pingTimer := false
            reconnectTimer := true
            reconnectAttempts := u.reconnectAttempts + 1 } : ConnRec)).pingTimer = false := by
    intro u
    by_cases h : u.manualClose <;> simp [h]
  have hfpi : ∀ u : ConnRec,
      ((if u.manualClose then { u with pingTimer := false }
        else
          { u with
            pingTimer := false
            reconnectTimer := true
            reconnectAttempts := u.reconnectAttempts + 1 } : ConnRec)).pingInterval = u.pingInterval := by
    intro u
    by_cases h : u.manualClose <;> simp [h]
  obtain ⟨hN1, hN2, hL1, hL2, hO, hWs⟩ := invOn_upd_parts I t.owner t.serial
    (fun u =>
      if u.manualClose then { u with pingTimer := false }
      else
        { u with
          pingTimer := false
          reconnectTimer := true
          reconnectAttempts := u.reconnectAttempts + 1 })
    (fun u => { u with st := .closed })
    hfs hfw (fun u => rfl) (fun u => rfl)
  refine ⟨I.connNodup, hN1, hN2, hL1, hL2, hO, hWs, ?_, ?_, ?_, ?_, ?_⟩
  · exact unreg_upd I t.owner _ hfs hfi hfm
  · -- closedQuiet
    intro r' hr' hmc'
    rcases mem_updRec_cases hr' with ⟨r₀, h₀, hk, rfl⟩ | ⟨r₀, h₀, hk, rfl⟩
    · have hr0 : r₀ = r := rec_serial_inj I h₀ hrm (by rw [hk, ← hro])
      subst hr0
      have hmc0 : r₀.manualClose = true := by rw [hfm r₀] at hmc'; exact hmc'
      obtain ⟨hq1, -, hq3⟩ := I.closedQuiet r₀ h₀ hmc0
      rw [if_pos hmc0]
      refine ⟨hq1, rfl, ?_⟩
      intro t' ht' hown
      rcases mem_updTr_cases ht' with ⟨t₀, ht₀, hkt, rfl⟩ | ⟨t₀, ht₀, hkt, rfl⟩
      · intro hl
        rcases hl with hl | ⟨hl, -, -⟩ <;> exact WsState.noConfusion hl
      · exact hq3 t' ht₀ hown
    · obtain ⟨hq1, hq2, hq3⟩ := I.closedQuiet r' h₀ hmc'
      refine ⟨hq1, hq2, ?_⟩
      intro t' ht' hown
      rcases mem_updTr_cases ht' with ⟨t₀, ht₀, hkt, rfl⟩ | ⟨t₀, ht₀, hkt, rfl⟩
      · intro hl
        rcases hl with hl | ⟨hl, -, -⟩ <;> exact WsState.noConfusion hl
      · exact hq3 t' ht₀ hown
  · -- detachedClosed
    intro t' ht' r' hr' hser hnws
    rcases mem_updTr_cases ht' with ⟨t₀, ht₀, hkt, rfl⟩ | ⟨t₀, ht₀, hkt, rfl⟩
    · rfl
    · rcases mem_updRec_cases hr' with ⟨r₁, h₁, hk1, rfl⟩ | ⟨r₁, h₁, hk1, rfl⟩
      · rw [hfs r₁] at hser
        rw [hfw r₁] at hnws
        exact I.detachedClosed t' ht₀ r₁ h₁ hser hnws
      · exact I.detachedClosed t' ht₀ r' h₁ hser hnws
  · -- pingIff
    intro r' hr'
    rcases mem_updRec_cases hr' with ⟨r₀, h₀, hk, rfl⟩ | ⟨r₀, h₀, hk, rfl⟩
    · have hr0 : r₀ = r := rec_serial_inj I h₀ hrm (by rw [hk, ← hro])
      subst hr0
      rw [hfp r₀]
      constructor
      · intro hcon
        exact Bool.noConfusion hcon
      · rintro ⟨-, t', ht', hws', -, hst'⟩
        exfalso
        rw [hfw r₀, hattach] at hws'
        have htks : t'.serial = t.serial := (Option.some_inj.mp hws').symm
        rcases mem_updTr_cases ht' with ⟨t₀, ht₀, hkt, he⟩ | ⟨t₀, ht₀, hkt, he⟩
        · subst he
          exact WsState.noConfusion hst'
        · subst he
          exact hkt htks
    · rw [I.pingIff r' h₀]
      constructor
      · rintro ⟨hpi, t₀, ht₀, hws0, hown0, hst0⟩
        have hne : t₀.serial ≠ t.serial := by
          intro hcon
          have ht0 : t₀ = t := tr_serial_inj I ht₀ htm hcon
          subst ht0
          have : r' = r := rec_serial_inj I h₀ hrm (by rw [← hown0, hro])
          subst this
          exact hk (by rw [hro])
        exact ⟨hpi, t₀, updTr_mem_ne ht₀ hne, hws0, hown0, hst0⟩
      · rintro ⟨hpi, t', ht', hws', hown', hst'⟩
        rcases mem_updTr_cases ht' with ⟨t₀, ht₀, hkt, he⟩ | ⟨t₀, ht₀, hkt, he⟩
        · subst he
          exact absurd hst' (by intro h; exact WsState.noConfusion h)
        · subst he
          exact ⟨hpi, t', ht₀, hws', hown', hst'⟩
  · -- reconClosed
    intro r' hr' hrt' t' ht' hown
    rcases mem_updRec_cases hr' with ⟨r₀, h₀, hk, rfl⟩ | ⟨r₀, h₀, hk, rfl⟩
    · have hr0 : r₀ = r := rec_serial_inj I h₀ hrm (by rw [hk, ← hro])
      subst hr0
      rcases mem_updTr_cases ht' with ⟨t₀, ht₀, hkt, rfl⟩ | ⟨t₀, ht₀, hkt, rfl⟩
      · rfl
      · rw [hfs r₀] at hown
        refine I.detachedClosed t' ht₀ r₀ h₀ hown.symm ?_
        rw [hattach]
        intro hcon
        exact hkt (Option.some_inj.mp hcon).symm
    · rcases mem_updTr_cases ht' with ⟨t₀, ht₀, hkt, rfl⟩ | ⟨t₀, ht₀, hkt, rfl⟩
      · rfl
      · exact I.reconClosed r' h₀ hrt' t' ht₀ hown

theorem invOn_wsUnexpected {s : PoolState} (I : Inv s) {t : Transport}
    (htm : t ∈ s.transports) (hg1 : t.st = .connecting) :
    InvOn s.connections s.recs
      (updTr t.serial (fun u => { u with rejected := true }) s.transports)
      s.nextSerial := by
  have hmap : (updTr t.serial (fun u => { u with rejected := true })
      s.transports).map (fun t => t.serial) = s.transports.map (fun t => t.serial) :=
    map_serial_updTr t.serial (fun u => { u with rejected := true }) (fun u => rfl) s.transports
  refine ⟨I.connNodup, I.recNodup, by rw [hmap]; exact I.trNodup, I.recLt, ?_, ?_, ?_,
    I.unregClosed, ?_, ?_, ?_, ?_⟩
  · intro t' ht'
    rcases mem_updTr_cases ht' with ⟨t₀, ht₀, hkt, rfl⟩ | ⟨t₀, ht₀, hkt, rfl⟩
    · exact I.trLt t₀ ht₀
    · exact I.trLt t' ht₀
  · intro t' ht'
    rcases mem_updTr_cases ht' with ⟨t₀, ht₀, hkt, rfl⟩ | ⟨t₀, ht₀, hkt, rfl⟩
    · exact I.ownerLt t₀ ht₀
    · exact I.ownerLt t' ht₀
  · intro r' hr' tk hws'
    obtain ⟨t₀, ht₀, hts, hto⟩ := I.wsSound r' hr' tk hws'
    by_cases hkt : t₀.serial = t.serial
    · exact ⟨_, updTr_mem_eq ht₀ hkt, hts, hto⟩
    · exact ⟨t₀, updTr_mem_ne ht₀ hkt, hts, hto⟩
  · -- closedQuiet
    intro r' hr' hmc'
    obtain ⟨hq1, hq2, hq3⟩ := I.closedQuiet r' hr' hmc'
    refine ⟨hq1, hq2, ?_⟩
    intro t' ht' hown
    rcases mem_updTr_cases ht' with ⟨t₀, ht₀, hkt, rfl⟩ | ⟨t₀, ht₀, hkt, rfl⟩
    · have hq := hq3 t₀ ht₀ hown
      intro hl
      rcases hl with hl | ⟨-, -, hl⟩
      · exact hq (Or.inl hl)
      · exact Bool.noConfusion hl
    · exact hq3 t' ht₀ hown
  · -- detachedClosed
    intro t' ht' r' hr' hser hnws
    rcases mem_updTr_cases ht' with ⟨t₀, ht₀, hkt, rfl⟩ | ⟨t₀, ht₀, hkt, rfl⟩
    · have ht0 : t₀ = t := tr_serial_inj I ht₀ htm hkt
      subst ht0
      have := I.detachedClosed t₀ ht₀ r' hr' hser hnws
      rw [hg1] at this
      exact WsState.noConfusion this
    · exact I.detachedClosed t' ht₀ r' hr' hser hnws
  · -- pingIff
    intro r' hr'
    rw [I.pingIff r' hr']
    constructor
    · rintro ⟨hpi, t₀, ht₀, hws0, hown0, hst0⟩
      by_cases hkt : t₀.serial = t.serial
      · have ht0 : t₀ = t := tr_serial_inj I ht₀ htm hkt
        subst ht0
        rw [hg1] at hst0
        exact absurd hst0 (by intro h; exact WsState.noConfusion h)
      · exact ⟨hpi, t₀, updTr_mem_ne ht₀ hkt, hws0, hown0, hst0⟩
    · rintro ⟨hpi, t', ht', hws', hown', hst'⟩
      rcases mem_updTr_cases ht' with ⟨t₀, ht₀, hkt, he⟩ | ⟨t₀, ht₀, hkt, he⟩
      · subst he
        exact ⟨hpi, t₀, ht₀, hws', hown', hst'⟩
      · subst he
        exact ⟨hpi, t', ht₀, hws', hown', hst'⟩
  · -- reconClosed
    intro r' hr' hrt' t' ht' hown
    rcases mem_updTr_cases ht' with ⟨t₀, ht₀, hkt, rfl⟩ | ⟨t₀, ht₀, hkt, rfl⟩
    · have ht0 : t₀ = t := tr_serial_inj I ht₀ htm hkt
      subst ht0
      have := I.reconClosed r' hr' hrt' t₀ ht₀ hown
      rw [hg1] at this
      exact WsState.noConfusion this
    · exact I.reconClosed r' hr' hrt' t' ht₀ hown



theorem invOn_fireReconnect {s : PoolState} (I : Inv s) {r : ConnRec}
    (hrm : r ∈ s.recs) (hrt : r.reconnectTimer = true) (d : CtorOpts) :
    InvOn s.connections
      (updRec r.serial (fun u =>
        { u with reconnectTimer := false, ws := some s.nextSerial }) s.recs)
      (s.transports ++
        [{ serial := s.nextSerial
           owner := r.serial
           st := .connecting
           closeRequested := false
           rejected := false
           dialOpts := d }])
      (s.nextSerial + 1) := by
  have hclosed : ∀ t ∈ s.transports, t.owner = r.serial → t.st = .closed :=
    I.reconClosed r hrm hrt
  have hmc : r.manualClose = false := by
    cases hb : r.manualClose
    · rfl
    · have := (I.closedQuiet r hrm hb).1
      rw [hrt] at this
      exact Bool.noConfusion this
  have hpt : r.pingTimer = false := by
    cases hb : r.pingTimer
    · rfl
    · obtain ⟨-, t₀, ht₀, hws0, hown0, hst0⟩ := (I.pingIff r hrm).mp hb
      have := hclosed t₀ ht₀ hown0
      rw [hst0] at this
      exact WsState.noConfusion this
  have hfreshT : ∀ t ∈ s.transports, t.serial ≠ s.nextSerial :=
    fun t ht => Nat.ne_of_lt (I.trLt t ht)
  refine ⟨I.connNodup, ?_, ?_, ?_, ?_, ?_, ?_, ?_, ?_, ?_, ?_, ?_⟩
  · rw [map_serial_updRec r.serial
      (fun u => { u with reconnectTimer := false, ws := some s.nextSerial })
      (fun u => rfl)]
    exact I.recNodup
  · rw [List.map_append]
    rw [List.nodup_append]
    refine ⟨I.trNodup, by simp, ?_⟩
    intro x hx
    obtain ⟨t₀, ht₀, rfl⟩ := List.mem_map.mp hx
    intro hc
    simp only [List.map_cons, List.map_nil, List.mem_cons, List.not_mem_nil, or_false] at hc
    exact hfreshT t₀ ht₀ hc
  · intro r' hr'
    rcases mem_updRec_cases hr' with ⟨r₀, h₀, hk, rfl⟩ | ⟨r₀, h₀, hk, rfl⟩
    · exact Nat.lt_succ_of_lt (I.recLt r₀ h₀)
    · exact Nat.lt_succ_of_lt (I.recLt r' h₀)
  · intro t' ht'
    rcases List.mem_append.mp ht' with h | h
    · exact Nat.lt_succ_of_lt (I.trLt t' h)
    · simp only [List.mem_singleton] at h
      subst h
      exact Nat.lt_succ_self _
  · intro t' ht'
    rcases List.mem_append.mp ht' with h | h
    · exact Nat.lt_succ_of_lt (I.ownerLt t' h)
    · simp only [List.mem_singleton] at h
      subst h
      exact Nat.lt_succ_of_lt (I.recLt r hrm)
  · -- wsSound
    intro r' hr' tk hws'
    rcases mem_updRec_cases hr' with ⟨r₀, h₀, hk, rfl⟩ | ⟨r₀, h₀, hk, rfl⟩
    · have hr0 : r₀ = r := rec_serial_inj I h₀ hrm hk
      subst hr0
      have htk : tk = s.nextSerial := by
        have : (some s.nextSerial : Option ℕ) = some tk := hws'
        exact (Option.some_inj.mp this).symm
      subst htk
      exact ⟨_, List.mem_append.mpr (Or.inr (List.mem_singleton.mpr rfl)), rfl, rfl⟩
    · obtain ⟨t₀, ht₀, hts, hto⟩ := I.wsSound r' h₀ tk hws'
      exact ⟨t₀, List.mem_append.mpr (Or.inl ht₀), hts, hto⟩
  · -- unregClosed
    exact unreg_upd I r.serial _ (fun u => rfl) (fun u => rfl) (fun u => rfl)
  · -- closedQuiet
    intro r' hr' hmc'
    rcases mem_updRec_cases hr' with ⟨r₀, h₀, hk, rfl⟩ | ⟨r₀, h₀, hk, rfl⟩
    · have hr0 : r₀ = r := rec_serial_inj I h₀ hrm hk
      subst hr0
      exfalso
      have : r₀.manualClose = true := hmc'
      rw [hmc] at this
      exact Bool.noConfusion this
    · obtain ⟨hq1, hq2, hq3⟩ := I.closedQuiet r' h₀ hmc'
      refine ⟨hq1, hq2, ?_⟩
      intro t' ht' hown
      rcases List.mem_append.mp ht' with h | h
      · exact hq3 t' h hown
      · simp only [List.mem_singleton] at h
        subst h
        exfalso
        have : r' = r := rec_serial_inj I h₀ hrm hown.symm
        subst this
        exact hk rfl
  · -- detachedClosed
    intro t' ht' r' hr' hser hnws
    rcases List.mem_append.mp ht' with h | h
    · rcases mem_updRec_cases hr' with ⟨r₀, h₀, hk, rfl⟩ | ⟨r₀, h₀, hk, rfl⟩
      · have hr0 : r₀ = r := rec_serial_inj I h₀ hrm hk
        subst hr0
        exact hclosed t' h hser.symm
      · exact I.detachedClosed t' h r' h₀ hser hnws
    · simp only [List.mem_singleton] at h
      subst h
      exfalso
      rcases mem_updRec_cases hr' with ⟨r₀, h₀, hk, rfl⟩ | ⟨r₀, h₀, hk, rfl⟩
      · exact hnws rfl
      · have : r' = r := rec_serial_inj I h₀ hrm hser
        subst this
        exact hk rfl
  · -- pingIff
    intro r' hr'
    rcases mem_updRec_cases hr' with ⟨r₀, h₀, hk, rfl⟩ | ⟨r₀, h₀, hk, rfl⟩
    · have hr0 : r₀ = r := rec_serial_inj I h₀ hrm hk
      subst hr0
      constructor
      · intro hcon
        have : r₀.pingTimer = true := hcon
        rw [hpt] at this
        exact Bool.noConfusion this
      · rintro ⟨-, t', ht', hws', -, hst'⟩
        exfalso
        have htks : t'.serial = s.nextSerial := by
          have hx : (some s.nextSerial : Option ℕ) = some t'.serial := hws'
          exact (Option.some_inj.mp hx).symm
        rcases List.mem_append.mp ht' with h | h
        · exact hfreshT t' h htks
        · simp only [List.mem_singleton] at h
          subst h
          exact WsState.noConfusion hst'
    · rw [I.pingIff r' h₀]
      constructor
      · rintro ⟨hpi, t₀, ht₀, hws0, hown0, hst0⟩
        exact ⟨hpi, t₀, List.mem_append.mpr (Or.inl ht₀), hws0, hown0, hst0⟩
      · rintro ⟨hpi, t', ht', hws', hown', hst'⟩
        rcases List.mem_append.mp ht' with h | h
        · exact ⟨hpi, t', h, hws', hown', hst'⟩
        · simp only [List.mem_singleton] at h
          subst h
          exfalso
          have : r' = r := rec_serial_inj I h₀ hrm hown'.symm
          subst this
          exact hk rfl
  · -- reconClosed
    intro r' hr' hrt' t' ht' hown
    rcases mem_updRec_cases hr' with ⟨r₀, h₀, hk, rfl⟩ | ⟨r₀, h₀, hk, rfl⟩
    · exfalso
      have : (false : Bool) = true := hrt'
      exact Bool.noConfusion this
    · rcases List.mem_append.mp ht' with h | h
      · exact I.reconClosed r' h₀ hrt' t' h hown
      · simp only [List.mem_singleton] at h
        subst h
        exfalso
        have : r' = r := rec_serial_inj I h₀ hrm hown.symm
        subst this
        exact hk rfl



theorem lookupKey_cons_pos {c : String × ℕ} {cs : List (String × ℕ)} {n : String}
    (h : c.1 = n) : lookupKey (c :: cs) n = some c.2 := by
  unfold lookupKey
  rw [List.find?_cons_of_pos _ (by simpa using h)]
  rfl

theorem lookupKey_cons_neg {c : String × ℕ} {cs : List (String × ℕ)} {n : String}
    (h : ¬ c.1 = n) : lookupKey (c :: cs) n = lookupKey cs n := by
  unfold lookupKey
  rw [List.find?_cons_of_neg _ (by simpa using h)]

theorem lookupKey_append_none {cs ds : List (String × ℕ)} {n : String}
    (h : ∀ p ∈ cs, ¬ p.1 = n) : lookupKey (cs ++ ds) n = lookupKey ds n := by
  unfold lookupKey
  rw [List.find?_append]
  have : cs.find? (fun p => p.1 = n) = none :=
    List.find?_eq_none.mpr (fun p hp => by simpa using h p hp)
  rw [this]
  rfl

theorem keys_setConn (n : String) (k : ℕ) (cs : List (String × ℕ))
    (h : (cs.map (fun p => p.1)).Nodup) :
    ((setConn n k cs).map (fun p => p.1)).Nodup := by
  unfold setConn
  by_cases ha : cs.any (fun p => p.1 = n)
  · rw [if_pos ha]
    have : (cs.map (fun p => if p.1 = n then (n, k) else p)).map (fun p => p.1) =
        cs.map (fun p => p.1) := by
      rw [List.map_map]
      refine List.map_congr_left ?_
      intro p _
      by_cases hp : p.1 = n
      · simp [hp]
      · simp [hp]
    rw [this]
    exact h
  · rw [if_neg ha]
    rw [List.map_append, List.nodup_append]
    refine ⟨h, by simp, ?_⟩
    intro x hx
    obtain ⟨p, hp, rfl⟩ := List.mem_map.mp hx
    simp only [List.map_cons, List.map_nil, List.mem_cons, List.not_mem_nil, or_false]
    intro hc
    rw [List.any_eq_true] at ha
    exact ha ⟨p, hp, by simp [hc]⟩

theorem lookupKey_setConn_self (n : String) (k : ℕ) (cs : List (String × ℕ)) :
    lookupKey (setConn n k cs) n = some k := by
  unfold setConn
  by_cases ha : cs.any (fun p => p.1 = n)
  · rw [if_pos ha]
    induction cs with
    | nil => simp at ha
    | cons c cs ih =>
      by_cases hc : c.1 = n
      · rw [List.map_cons, if_pos hc]
        exact lookupKey_cons_pos rfl
      · rw [List.map_cons, if_neg hc]
        rw [lookupKey_cons_neg hc]
        refine ih ?_
        simp only [List.any_cons, Bool.or_eq_true] at ha
        rcases ha with ha | ha
        · exact absurd (by simpa using ha) hc
        · exact ha
  · rw [if_neg ha]
    rw [lookupKey_append_none (fun p hp hc => by
      rw [List.any_eq_true] at ha
      exact ha ⟨p, hp, by simp [hc]⟩)]
    exact lookupKey_cons_pos rfl

theorem lookupKey_setConn_other (n : String) (k : ℕ) (cs : List (String × ℕ))
    {m : String} (h : ¬ m = n) : lookupKey (setConn n k cs) m = lookupKey cs m := by
  unfold setConn
  by_cases ha : cs.any (fun p => p.1 = n)
  · rw [if_pos ha]
    induction cs with
    | nil => rfl
    | cons c cs ih =>
      rw [List.map_cons]
      by_cases hc : c.1 = n
      · rw [if_pos hc]
        rw [lookupKey_cons_neg (by simpa using fun hc2 => h hc2.symm)]
        rw [lookupKey_cons_neg (by rw [hc]; exact fun hc2 => h hc2.symm)]
        by_cases ha2 : cs.any (fun p => p.1 = n)
        · exact ih ha2
        · have : (cs.map (fun p => if p.1 = n then (n, k) else p)) = cs := by
            refine List.map_congr_left ?_ |>.trans (List.map_id cs)
            intro p hp
            rw [List.any_eq_true] at ha2
            have : ¬ p.1 = n := fun hc3 => ha2 ⟨p, hp, by simp [hc3]⟩
            simp [this]
          rw [this]
      · rw [if_neg hc]
        by_cases hcm : c.1 = m
        · rw [lookupKey_cons_pos hcm, lookupKey_cons_pos hcm]
        · rw [lookupKey_cons_neg hcm, lookupKey_cons_neg hcm]
          by_cases ha2 : cs.any (fun p => p.1 = n)
          · exact ih ha2
          · have : (cs.map (fun p => if p.1 = n then (n, k) else p)) = cs := by
              refine List.map_congr_left ?_ |>.trans (List.map_id cs)
              intro p hp
              rw [List.any_eq_true] at ha2
              have : ¬ p.1 = n := fun hc3 => ha2 ⟨p, hp, by simp [hc3]⟩
              simp [this]
            rw [this]
  · rw [if_neg ha]
    unfold lookupKey
    rw [List.find?_append]
    have h2 : List.find? (fun p => p.1 = m) [(n, k)] = none := by
      rw [List.find?_eq_none]
      intro p hp
      simp only [List.mem_singleton] at hp
      subst hp
      simpa using fun hc => h hc.symm
    rw [h2]
    cases hf : cs.find? (fun p => p.1 = m) <;> simp [hf]

theorem keys_delConn (n : String) (cs : List (String × ℕ))
    (h : (cs.map (fun p => p.1)).Nodup) :
    ((delConn n cs).map (fun p => p.1)).Nodup :=
  h.sublist (List.Sublist.map _ (List.filter_sublist cs))

theorem lookupKey_delConn_self (n : String) (cs : List (String × ℕ)) :
    lookupKey (delConn n cs) n = none := by
  unfold lookupKey delConn
  rw [List.find?_eq_none.mpr]
  · rfl
  · intro p hp
    have := (List.mem_filter.mp hp).2
    simpa using this

theorem lookupKey_delConn_other (n : String) (cs : List (String × ℕ))
    {m : String} (h : ¬ m = n) : lookupKey (delConn n cs) m = lookupKey cs m := by
  induction cs with
  | nil => rfl
  | cons c cs ih =>
    unfold delConn
    rw [List.filter_cons]
    by_cases hc : c.1 = n
    · rw [if_neg (by simpa using hc)]
      rw [lookupKey_cons_neg (by rw [hc]; exact fun hc2 => h hc2.symm)]
      exact ih
    · rw [if_pos (by simpa using hc)]
      by_cases hcm : c.1 = m
      · rw [lookupKey_cons_pos hcm, lookupKey_cons_pos hcm]
      · rw [lookupKey_cons_neg hcm, lookupKey_cons_neg hcm]
        exact ih



theorem findRec_eq_none {s : PoolState} {k : ℕ} (h : findRec s k = none) :
    ∀ r ∈ s.recs, r.serial ≠ k := by
  intro r hr
  have := List.find?_eq_none.mp h r hr
  simpa using this

theorem applyClose_allClosed (s : PoolState) (n : String) (I : Inv s) :
    AllClosed n (applyCloseByName s n).recs := by
  unfold applyCloseByName
  split
  · rename_i hk
    intro r hr hid
    refine I.unregClosed r hr ?_
    show lookupKey s.connections r.id ≠ some r.serial
    rw [hid]
    rw [show lookupKey s.connections n = lookupConn s n from rfl, hk]
    exact fun hc => Option.noConfusion hc
  rename_i k hk
  split
  · rename_i hrf
    intro r hr hid
    refine I.unregClosed r hr ?_
    show lookupKey s.connections r.id ≠ some r.serial
    rw [hid]
    rw [show lookupKey s.connections n = lookupConn s n from rfl, hk]
    intro hc
    exact findRec_eq_none hrf r hr (Option.some_inj.mp hc).symm
  rename_i r hrf
  have key : AllClosed n (updRec k closeRecFields s.recs) := by
    intro r' hr' hid
    rcases mem_updRec_cases hr' with ⟨r₀, h₀, hks, rfl⟩ | ⟨r₀, h₀, hks, rfl⟩
    · rfl
    · refine I.unregClosed r' h₀ ?_
      rw [hid]
      rw [show lookupKey s.connections n = lookupConn s n from rfl, hk]
      intro hc
      exact hks (Option.some_inj.mp hc).symm
  split
  · exact key
  · exact key

theorem invOn_delConn {s1 : PoolState} (I : Inv s1) (n : String)
    (hn : AllClosed n s1.recs) :
    InvOn (delConn n s1.connections) s1.recs s1.transports s1.nextSerial := by
  refine ⟨keys_delConn n s1.connections I.connNodup, I.recNodup, I.trNodup, I.recLt, I.trLt,
    I.ownerLt, I.wsSound, ?_, I.closedQuiet, I.detachedClosed, I.pingIff, I.reconClosed⟩
  intro r hr hlk
  by_cases hid : r.id = n
  · exact hn r hr hid
  · refine I.unregClosed r hr ?_
    rw [← lookupKey_delConn_other n s1.connections hid]
    exact hlk

theorem invOn_install {s1 : PoolState} (I : Inv s1) (n : String) (o : CreateOpts)
    (hn : AllClosed n s1.recs) :
    InvOn (setConn n s1.nextSerial s1.connections)
      (s1.recs ++
        [{ serial := s1.nextSerial
           id := n
           url := o.url
           protocols := o.protocols
           headers := buildHeaders o
           opts := o
           ws := some (s1.nextSerial + 1)
           pingInterval := o.pingInterval.getD s1.cfg.pingIntervalDefault
           pingTimer := false
           reconnectAttempts := 0
           manualClose := false
           reconnectTimer := false }])
      (s1.transports ++
        [{ serial := s1.nextSerial + 1
           owner := s1.nextSerial
           st := .connecting
           closeRequested := false
           rejected := false
           dialOpts := buildWsOptions o }])
      (s1.nextSerial + 1 + 1) := by
  have hfreshR : ∀ r ∈ s1.recs, r.serial ≠ s1.nextSerial :=
    fun r hr => Nat.ne_of_lt (I.recLt r hr)
  have hfreshT : ∀ t ∈ s1.transports, t.serial ≠ s1.nextSerial + 1 :=
    fun t ht => Nat.ne_of_lt (Nat.lt_succ_of_lt (I.trLt t ht))
  refine ⟨keys_setConn n s1.nextSerial s1.connections I.connNodup, ?_, ?_, ?_, ?_, ?_, ?_,
    ?_, ?_, ?_, ?_, ?_⟩
  · rw [List.map_append, List.nodup_append]
    refine ⟨I.recNodup, by simp, ?_⟩
    intro x hx
    obtain ⟨r₀, h₀, rfl⟩ := List.mem_map.mp hx
    intro hc
    simp only [List.map_cons, List.map_nil, List.mem_cons, List.not_mem_nil, or_false] at hc
    exact hfreshR r₀ h₀ hc
  · rw [List.map_append, List.nodup_append]
    refine ⟨I.trNodup, by simp, ?_⟩
    intro x hx
    obtain ⟨t₀, h₀, rfl⟩ := List.mem_map.mp hx
    intro hc
    simp only [List.map_cons, List.map_nil, List.mem_cons, List.not_mem_nil, or_false] at hc
    exact hfreshT t₀ h₀ hc
  · intro r' hr'
    rcases List.mem_append.mp hr' with h | h
    · exact Nat.lt_succ_of_lt (Nat.lt_succ_of_lt (I.recLt r' h))
    · simp only [List.mem_singleton] at h
      subst h
      exact Nat.lt_succ_of_lt (Nat.lt_succ_self _)
  · intro t' ht'
    rcases List.mem_append.mp ht' with h | h
    · exact Nat.lt_succ_of_lt (Nat.lt_succ_of_lt (I.trLt t' h))
    · simp only [List.mem_singleton] at h
      subst h
      exact Nat.lt_succ_self _
  · intro t' ht'
    rcases List.mem_append.mp ht' with h | h
    · exact Nat.lt_succ_of_lt (Nat.lt_succ_of_lt (I.ownerLt t' h))
    · simp only [List.mem_singleton] at h
      subst h
      exact Nat.lt_succ_of_lt (Nat.lt_succ_self _)
  · -- wsSound
    intro r' hr' tk hws'
    rcases List.mem_append.mp hr' with h | h
    · obtain ⟨t₀, ht₀, hts, hto⟩ := I.wsSound r' h tk hws'
      exact ⟨t₀, List.mem_append.mpr (Or.inl ht₀), hts, hto⟩
    · simp only [List.mem_singleton] at h
      subst h
      have htk : tk = s1.nextSerial + 1 := by
        have hx : (some (s1.nextSerial + 1) : Option ℕ) = some tk := hws'
        exact (Option.some_inj.mp hx).symm
      subst htk
      exact ⟨_, List.mem_append.mpr (Or.inr (List.mem_singleton.mpr rfl)), rfl, rfl⟩
  · -- unregClosed
    intro r' hr' hlk
    rcases List.mem_append.mp hr' with h | h
    · by_cases hid : r'.id = n
      · exact hn r' h hid
      · refine I.unregClosed r' h ?_
        rw [← lookupKey_setConn_other n s1.nextSerial s1.connections hid]
        exact hlk
    · simp only [List.mem_singleton] at h
      subst h
      exfalso
      apply hlk
      show lookupKey (setConn n s1.nextSerial s1.connections) n = some s1.nextSerial
      exact lookupKey_setConn_self n s1.nextSerial s1.connections
  · -- closedQuiet
    intro r' hr' hmc'
    rcases List.mem_append.mp hr' with h | h
    · obtain ⟨hq1, hq2, hq3⟩ := I.closedQuiet r' h hmc'
      refine ⟨hq1, hq2, ?_⟩
      intro t' ht' hown
      rcases List.mem_append.mp ht' with ht | ht
      · exact hq3 t' ht hown
      · simp only [List.mem_singleton] at ht
        subst ht
        exfalso
        exact hfreshR r' h hown.symm
    · simp only [List.mem_singleton] at h
      subst h
      exact Bool.noConfusion hmc'
  · -- detachedClosed
    intro t' ht' r' hr' hser hnws
    rcases List.mem_append.mp ht' with ht | ht
    · rcases List.mem_append.mp hr' with h | h
      · exact I.detachedClosed t' ht r' h hser hnws
      · simp only [List.mem_singleton] at h
        subst h
        exfalso
        have : t'.owner < s1.nextSerial := I.ownerLt t' ht
        rw [← hser] at this
        exact Nat.lt_irrefl _ this
    · simp only [List.mem_singleton] at ht
      subst ht
      rcases List.mem_append.mp hr' with h | h
      · exfalso
        exact hfreshR r' h hser
      · simp only [List.mem_singleton] at h
        subst h
        exact absurd rfl hnws
  · -- pingIff
    intro r' hr'
    rcases List.mem_append.mp hr' with h | h
    · rw [I.pingIff r' h]
      constructor
      · rintro ⟨hpi, t₀, ht₀, hws0, hown0, hst0⟩
        exact ⟨hpi, t₀, List.mem_append.mpr (Or.inl ht₀), hws0, hown0, hst0⟩
      · rintro ⟨hpi, t', ht', hws', hown', hst'⟩
        rcases List.mem_append.mp ht' with ht | ht
        · exact ⟨hpi, t', ht, hws', hown', hst'⟩
        · simp only [List.mem_singleton] at ht
          subst ht
          exfalso
          exact hfreshR r' h hown'.symm
    · simp only [List.mem_singleton] at h
      subst h
      constructor
      · intro hcon
        exact Bool.noConfusion hcon
      · rintro ⟨-, t', ht', hws', -, hst'⟩
        exfalso
        have htks : t'.serial = s1.nextSerial + 1 := by
          have hx : (some (s1.nextSerial + 1) : Option ℕ) = some t'.serial := hws'
          exact (Option.some_inj.mp hx).symm
        rcases List.mem_append.mp ht' with ht | ht
        · exact hfreshT t' ht htks
        · simp only [List.mem_singleton] at ht
          subst ht
          exact WsState.noConfusion hst'
  · -- reconClosed
    intro r' hr' hrt' t' ht' hown
    rcases List.mem_append.mp hr' with h | h
    · rcases List.mem_append.mp ht' with ht | ht
      · exact I.reconClosed r' h hrt' t' ht hown
      · simp only [List.mem_singleton] at ht
        subst ht
        exfalso
        exact hfreshR r' h hown.symm
    · simp only [List.mem_singleton] at h
      subst h
      exact Bool.noConfusion hrt'



theorem mem_mapIf_cases {α : Type} {p : α → Bool} {f : α → α} {l : List α} {x : α}
    (hx : x ∈ l.map (fun a => if p a then f a else a)) :
    (∃ a ∈ l, p a = true ∧ x = f a) ∨ (∃ a ∈ l, p a = false ∧ x = a) := by
  obtain ⟨a, ha, he⟩ := List.mem_map.mp hx
  cases hp : p a
  · right
    refine ⟨a, ha, hp, ?_⟩
    rw [← he, if_neg (by rw [hp]; exact Bool.noConfusion)]
  · left
    refine ⟨a, ha, hp, ?_⟩
    rw [← he, if_pos (by rw [hp])]

theorem mapIf_mem_pos {α : Type} {p : α → Bool} {f : α → α} {l : List α} {a : α}
    (ha : a ∈ l) (hp : p a = true) : f a ∈ l.map (fun a => if p a then f a else a) := by
  have h : (if p a then f a else a) ∈ l.map (fun a => if p a then f a else a) :=
    List.mem_map.mpr ⟨a, ha, rfl⟩
  rwa [if_pos (by rw [hp])] at h

theorem mapIf_mem_neg {α : Type} {p : α → Bool} {f : α → α} {l : List α} {a : α}
    (ha : a ∈ l) (hp : p a = false) : a ∈ l.map (fun a => if p a then f a else a) := by
  have h : (if p a then f a else a) ∈ l.map (fun a => if p a then f a else a) :=
    List.mem_map.mpr ⟨a, ha, rfl⟩
  rwa [if_neg (by rw [hp]; exact Bool.noConfusion)] at h

theorem map_over_mapIf {α β : Type} (p : α → Bool) (f : α → α) (g : α → β)
    (hg : ∀ a, g (f a) = g a) (l : List α) :
    (l.map (fun a => if p a then f a else a)).map g = l.map g := by
  rw [List.map_map]
  refine List.map_congr_left ?_
  intro a _
  by_cases hp : p a
  · simp only [Function.comp_apply, if_pos hp, hg]
  · simp only [Function.comp_apply, if_neg hp]



theorem invOn_closeAll {s : PoolState} (I : Inv s) :
    InvOn s.connections
      (s.recs.map (fun r =>
        if (s.connections.map (fun p => p.2)).contains r.serial then closeRecFields r else r))
      (s.transports.map (fun t =>
        if s.recs.any (fun r =>
          (s.connections.map (fun p => p.2)).contains r.serial && r.ws == some t.serial)
        then closeTr t else t))
      s.nextSerial := by
  have hcondE : ∀ t ∈ s.transports,
      s.recs.any (fun r =>
        (s.connections.map (fun p => p.2)).contains r.serial && r.ws == some t.serial) = true →
      ∃ rw ∈ s.recs, (s.connections.map (fun p => p.2)).contains rw.serial = true ∧
        rw.ws = some t.serial ∧ t.owner = rw.serial := by
    intro t htm hany
    rw [List.any_eq_true] at hany
    obtain ⟨rw, hrw, hb⟩ := hany
    rw [Bool.and_eq_true] at hb
    obtain ⟨hc, hwseq⟩ := hb
    have hwseq2 : rw.ws = some t.serial := eq_of_beq hwseq
    obtain ⟨t₂, ht₂, ht₂s, ht₂o⟩ := I.wsSound rw hrw t.serial hwseq2
    have he2 : t₂ = t := tr_serial_inj I ht₂ htm ht₂s
    subst he2
    exact ⟨rw, hrw, hc, hwseq2, ht₂o⟩
  have hcondI : ∀ (t : Transport), ∀ rw ∈ s.recs,
      (s.connections.map (fun p => p.2)).contains rw.serial = true →
      rw.ws = some t.serial →
      s.recs.any (fun r =>
        (s.connections.map (fun p => p.2)).contains r.serial && r.ws == some t.serial) = true := by
    intro t rw hrw hc hws
    rw [List.any_eq_true]
    exact ⟨rw, hrw, by rw [Bool.and_eq_true]; exact ⟨hc, beq_iff_eq.mpr hws⟩⟩
  refine ⟨I.connNodup, ?_, ?_, ?_, ?_, ?_, ?_, ?_, ?_, ?_, ?_, ?_⟩
  · rw [map_over_mapIf _ closeRecFields (fun r => r.serial) (fun u => rfl)]
    exact I.recNodup
  · rw [map_over_mapIf _ closeTr (fun t => t.serial) closeTr_serial]
    exact I.trNodup
  · intro r' hr'
    rcases mem_mapIf_cases hr' with ⟨r₀, h₀, hp, rfl⟩ | ⟨r₀, h₀, hp, rfl⟩
    · exact I.recLt r₀ h₀
    · exact I.recLt r' h₀
  · intro t' ht'
    rcases mem_mapIf_cases ht' with ⟨t₀, h₀, hp, rfl⟩ | ⟨t₀, h₀, hp, rfl⟩
    · rw [closeTr_serial]
      exact I.trLt t₀ h₀
    · exact I.trLt t' h₀
  · intro t' ht'
    rcases mem_mapIf_cases ht' with ⟨t₀, h₀, hp, rfl⟩ | ⟨t₀, h₀, hp, rfl⟩
    · rw [closeTr_owner]
      exact I.ownerLt t₀ h₀
    · exact I.ownerLt t' h₀
  · -- wsSound
    intro r' hr' tk hws'
    have key : ∀ r₀ ∈ s.recs, r₀.ws = some tk → r'.serial = r₀.serial →
        ∃ t ∈ s.transports.map (fun t =>
          if s.recs.any (fun r =>
            (s.connections.map (fun p => p.2)).contains r.serial && r.ws == some t.serial)
          then closeTr t else t), t.serial = tk ∧ t.owner = r'.serial := by
      intro r₀ h₀ hws0 hser
      obtain ⟨t, htmem, htser, htown⟩ := I.wsSound r₀ h₀ tk hws0
      cases hp : s.recs.any (fun r =>
          (s.connections.map (fun p => p.2)).contains r.serial && r.ws == some t.serial)
      · exact ⟨t, mapIf_mem_neg htmem hp, htser, by rw [htown, hser]⟩
      · exact ⟨closeTr t, mapIf_mem_pos htmem hp, by rw [closeTr_serial, htser],
          by rw [closeTr_owner, htown, hser]⟩
    rcases mem_mapIf_cases hr' with ⟨r₀, h₀, hp, rfl⟩ | ⟨r₀, h₀, hp, rfl⟩
    · exact key r₀ h₀ hws' rfl
    · exact key r' h₀ hws' rfl
  · -- unregClosed
    intro r' hr' hlk
    rcases mem_mapIf_cases hr' with ⟨r₀, h₀, hp, rfl⟩ | ⟨r₀, h₀, hp, rfl⟩
    · rfl
    · exact I.unregClosed r' h₀ hlk
  · -- closedQuiet
    intro r' hr' hmc'
    rcases mem_mapIf_cases hr' with ⟨r₀, h₀, hp, rfl⟩ | ⟨r₀, h₀, hp, rfl⟩
    · refine ⟨rfl, rfl, ?_⟩
      intro t' ht' hown
      rcases mem_mapIf_cases ht' with ⟨t₀, ht₀, hpt, rfl⟩ | ⟨t₀, ht₀, hpt, rfl⟩
      · exact not_liveT_closeTr t₀
      · have hdet : t'.st = .closed := by
          refine I.detachedClosed t' ht₀ r₀ h₀ hown.symm ?_
          intro hcon
          rw [hcondI t' r₀ h₀ hp hcon] at hpt
          exact Bool.noConfusion hpt
        intro hl
        rcases hl with hl | ⟨hl, -, -⟩ <;> rw [hdet] at hl <;> exact WsState.noConfusion hl
    · obtain ⟨hq1, hq2, hq3⟩ := I.closedQuiet r' h₀ hmc'
      refine ⟨hq1, hq2, ?_⟩
      intro t' ht' hown
      rcases mem_mapIf_cases ht' with ⟨t₀, ht₀, hpt, rfl⟩ | ⟨t₀, ht₀, hpt, rfl⟩
      · exact not_liveT_closeTr t₀
      · exact hq3 t' ht₀ hown
  · -- detachedClosed
    intro t' ht' r' hr' hser hnws
    rcases mem_mapIf_cases ht' with ⟨t₀, ht₀, hpt, rfl⟩ | ⟨t₀, ht₀, hpt, rfl⟩
    · obtain ⟨rw, hrw, hcw, hwsw, hownw⟩ := hcondE t₀ ht₀ hpt
      exfalso
      rcases mem_mapIf_cases hr' with ⟨r₀, h₀, hp, rfl⟩ | ⟨r₀, h₀, hp, rfl⟩
      · have hser0 : r₀.serial = t₀.owner := by
          rw [show (closeRecFields r₀).serial = r₀.serial from rfl] at hser
          rw [hser, closeTr_owner]
        have hr0 : r₀ = rw := rec_serial_inj I h₀ hrw (by rw [hser0, hownw])
        subst hr0
        apply hnws
        show r₀.ws = some (closeTr t₀).serial
        rw [closeTr_serial, hwsw]
      · have hser0 : r'.serial = t₀.owner := by
          rw [hser, closeTr_owner]
        have hr0 : r' = rw := rec_serial_inj I h₀ hrw (by rw [hser0, hownw])
        subst hr0
        apply hnws
        show r'.ws = some (closeTr t₀).serial
        rw [closeTr_serial, hwsw]
    · rcases mem_mapIf_cases hr' with ⟨r₀, h₀, hp, rfl⟩ | ⟨r₀, h₀, hp, rfl⟩
      · exact I.detachedClosed t' ht₀ r₀ h₀ hser hnws
      · exact I.detachedClosed t' ht₀ r' h₀ hser hnws
  · -- pingIff
    intro r' hr'
    rcases mem_mapIf_cases hr' with ⟨r₀, h₀, hp, rfl⟩ | ⟨r₀, h₀, hp, rfl⟩
    · constructor
      · intro hcon
        exact Bool.noConfusion hcon
      · rintro ⟨-, t', ht', hws', hown', hst'⟩
        exfalso
        have hws0 : r₀.ws = some t'.serial := hws'
        rcases mem_mapIf_cases ht' with ⟨t₀, ht₀, hpt, he⟩ | ⟨t₀, ht₀, hpt, he⟩
        · subst he
          exact closeTr_st_ne_opened t₀ hst'
        · subst he
          rw [hcondI t' r₀ h₀ hp hws0] at hpt
          exact Bool.noConfusion hpt
    · rw [I.pingIff r' h₀]
      constructor
      · rintro ⟨hpi, t₀, ht₀, hws0, hown0, hst0⟩
        have hpt : s.recs.any (fun r =>
            (s.connections.map (fun p => p.2)).contains r.serial && r.ws == some t₀.serial) = false := by
          cases hq : s.recs.any (fun r =>
              (s.connections.map (fun p => p.2)).contains r.serial && r.ws == some t₀.serial)
          · rfl
          · exfalso
            obtain ⟨rw, hrw, hcw, hwsw, hownw⟩ := hcondE t₀ ht₀ hq
            have hr0 : rw = r' := rec_serial_inj I hrw h₀ (by rw [← hownw, hown0])
            subst hr0
            rw [hcw] at hp
            exact Bool.noConfusion hp
        exact ⟨hpi, t₀, mapIf_mem_neg ht₀ hpt, hws0, hown0, hst0⟩
      · rintro ⟨hpi, t', ht', hws', hown', hst'⟩
        rcases mem_mapIf_cases ht' with ⟨t₀, ht₀, hpt, he⟩ | ⟨t₀, ht₀, hpt, he⟩
        · subst he
          exact absurd hst' (closeTr_st_ne_opened t₀)
        · subst he
          exact ⟨hpi, t', ht₀, hws', hown', hst'⟩
  · -- reconClosed
    intro r' hr' hrt' t' ht' hown
    rcases mem_mapIf_cases hr' with ⟨r₀, h₀, hp, rfl⟩ | ⟨r₀, h₀, hp, rfl⟩
    · exact Bool.noConfusion hrt'
    · rcases mem_mapIf_cases ht' with ⟨t₀, ht₀, hpt, rfl⟩ | ⟨t₀, ht₀, hpt, rfl⟩
      · have h0 : t₀.st = .closed := by
          refine I.reconClosed r' h₀ hrt' t₀ ht₀ ?_
          rw [← closeTr_owner t₀]
          exact hown
        rw [closeTr_of_closed h0]
        exact h0
      · exact I.reconClosed r' h₀ hrt' t' ht₀ hown



theorem inv_init (cfg : NodeConfig) : Inv (initState cfg) := by
  refine ⟨?_, ?_, ?_, ?_, ?_, ?_, ?_, ?_, ?_, ?_, ?_, ?_⟩
  · simp [initState]
  · simp [initState]
  · simp [initState]
  · intro x hx
    exact absurd hx (List.not_mem_nil x)
  · intro x hx
    exact absurd hx (List.not_mem_nil x)
  · intro x hx
    exact absurd hx (List.not_mem_nil x)
  · intro x hx
    exact absurd hx (List.not_mem_nil x)
  · intro x hx
    exact absurd hx (List.not_mem_nil x)
  · intro x hx
    exact absurd hx (List.not_mem_nil x)
  · intro x hx
    exact absurd hx (List.not_mem_nil x)
  · intro x hx
    exact absurd hx (List.not_mem_nil x)
  · intro x hx
    exact absurd hx (List.not_mem_nil x)

theorem inv_step {s s' : PoolState} {a : PoolAction} (I : Inv s)
    (h : step a s = some s') : Inv s' := by
  cases a with
  | cmdCreate n o =>
    simp only [step] at h
    split at h
    · exact absurd h (by simp)
    · injection h with h
      subst h
      exact invOn_install (inv_applyClose s n I) n (cmdOpts o) (applyClose_allClosed s n I)
  | cmdClose n =>
    simp only [step] at h
    split at h
    · exact absurd h (by simp)
    · injection h with h
      subst h
      exact inv_applyClose s n I
  | cmdDelete n =>
    simp only [step] at h
    split at h
    · exact absurd h (by simp)
    · injection h with h
      subst h
      exact invOn_delConn (inv_applyClose s n I) n (applyClose_allClosed s n I)
  | cmdCloseAll =>
    simp only [step] at h
    injection h with h
    subst h
    exact invOn_closeAll I
  | sendMsg n p =>
    simp only [step] at h
    split at h
    · injection h with h
      subst h
      exact I
    · injection h with h
      subst h
      unfold sendTo
      split
      · exact I
      · exact I
  | wsOpen tk =>
    simp only [step] at h
    split at h
    · exact absurd h (by simp)
    rename_i t hft
    split at h
    · rename_i hg
      split at h
      · exact absurd h (by simp)
      rename_i r hfr
      injection h with h
      subst h
      obtain ⟨htm, hts⟩ := findTr_mem hft
      subst hts
      obtain ⟨hrm, hro⟩ := findRec_mem hfr
      exact invOn_wsOpen I htm hrm hro hg.1 hg.2.1 hg.2.2
    · exact absurd h (by simp)
  | wsClose tk code reason =>
    simp only [step] at h
    split at h
    · exact absurd h (by simp)
    rename_i t hft
    split at h
    · rename_i hg
      split at h
      · exact absurd h (by simp)
      rename_i r hfr
      injection h with h
      subst h
      obtain ⟨htm, hts⟩ := findTr_mem hft
      subst hts
      obtain ⟨hrm, hro⟩ := findRec_mem hfr
      exact invOn_wsClose I htm hrm hro hg.1 hg.2
    · exact absurd h (by simp)
  | wsError tk msg =>
    simp only [step] at h
    split at h
    · exact absurd h (by simp)
    split at h
    · split at h
      · exact absurd h (by simp)
      · injection h with h
        subst h
        exact I
    · exact absurd h (by simp)
  | wsMessage tk d isBin =>
    simp only [step] at h
    split at h
    · exact absurd h (by simp)
    split at h
    · split at h
      · exact absurd h (by simp)
      · injection h with h
        subst h
        exact I
    · exact absurd h (by simp)
  | wsUnexpected tk status hdrs body =>
    simp only [step] at h
    split at h
    · exact absurd h (by simp)
    rename_i t hft
    split at h
    · rename_i hg
      split at h
      · exact absurd h (by simp)
      rename_i r hfr
      injection h with h
      subst h
      obtain ⟨htm, hts⟩ := findTr_mem hft
      subst hts
      exact invOn_wsUnexpected I htm hg.1
    · exact absurd h (by simp)
  | fireReconnect k =>
    simp only [step] at h
    split at h
    · exact absurd h (by simp)
    rename_i r hfr
    split at h
    · rename_i hrt
      injection h with h
      subst h
      obtain ⟨hrm, hrs⟩ := findRec_mem hfr
      subst hrs
      exact invOn_fireReconnect I hrm hrt (reconnectDialOpts r s.cfg.timeoutMs)
    · exact absurd h (by simp)
  | firePing k =>
    simp only [step] at h
    split at h
    · exact absurd h (by simp)
    split at h
    · injection h with h
      subst h
      exact I
    · exact absurd h (by simp)

theorem reach_inv {cfg : NodeConfig} {s : PoolState} (h : Reach cfg s) : Inv s := by
  induction h with
  | init => exact inv_init cfg
  | next hr hstep ih => exact inv_step ih hstep

theorem allClosed_applyClose {s : PoolState} {n : String} (m : String)
    (hac : AllClosed n s.recs) : AllClosed n (applyCloseByName s m).recs := by
  have key : ∀ k : ℕ, AllClosed n (updRec k closeRecFields s.recs) := by
    intro k r' hr' hid
    rcases mem_updRec_cases hr' with ⟨r₀, h₀, hks, rfl⟩ | ⟨r₀, h₀, hks, rfl⟩
    · rfl
    · exact hac r' h₀ hid
  unfold applyCloseByName
  split
  · exact hac
  split
  · exact hac
  split
  · exact key _
  · exact key _

theorem step_persist {s s' : PoolState} {a : PoolAction} (h : step a s = some s') :
    s.nextSerial ≤ s'.nextSerial ∧
    (∀ r' ∈ s'.recs, r'.serial < s.nextSerial →
      ∃ r ∈ s.recs, r.serial = r'.serial ∧ r.id = r'.id) := by
  have hAC : ∀ (m : String), (applyCloseByName s m).nextSerial = s.nextSerial ∧
      ∀ r' ∈ (applyCloseByName s m).recs,
        ∃ r ∈ s.recs, r.serial = r'.serial ∧ r.id = r'.id := by
    intro m
    unfold applyCloseByName
    split
    · exact ⟨rfl, fun r' hr' => ⟨r', hr', rfl, rfl⟩⟩
    split
    · exact ⟨rfl, fun r' hr' => ⟨r', hr', rfl, rfl⟩⟩
    have key : ∀ k : ℕ, ∀ r' ∈ updRec k closeRecFields s.recs,
        ∃ r ∈ s.recs, r.serial = r'.serial ∧ r.id = r'.id := by
      intro k r' hr'
      rcases mem_updRec_cases hr' with ⟨r₀, h₀, hks, rfl⟩ | ⟨r₀, h₀, hks, rfl⟩
      · exact ⟨r₀, h₀, rfl, rfl⟩
      · exact ⟨r', h₀, rfl, rfl⟩
    split
    · exact ⟨rfl, key _⟩
    · exact ⟨rfl, key _⟩
  cases a with
  | cmdCreate n o =>
    simp only [step] at h
    split at h
    · exact absurd h (by simp)
    · injection h with h
      subst h
      obtain ⟨he, hp⟩ := hAC n
      constructor
      · show s.nextSerial ≤ (applyCloseByName s n).nextSerial + 1 + 1
        rw [he]
        omega
      · intro r' hr' hlt
        rcases List.mem_append.mp hr' with hm | hm
        · exact hp r' hm
        · simp only [List.mem_singleton] at hm
          subst hm
          rw [he] at hlt
          exact absurd hlt (by simp)
  | cmdClose n =>
    simp only [step] at h
    split at h
    · exact absurd h (by simp)
    · injection h with h
      subst h
      obtain ⟨he, hp⟩ := hAC n
      exact ⟨le_of_eq he.symm, fun r' hr' _ => hp r' hr'⟩
  | cmdDelete n =>
    simp only [step] at h
    split at h
    · exact absurd h (by simp)
    · injection h with h
      subst h
      obtain ⟨he, hp⟩ := hAC n
      exact ⟨le_of_eq he.symm, fun r' hr' _ => hp r' hr'⟩
  | cmdCloseAll =>
    simp only [step] at h
    injection h with h
    subst h
    refine ⟨le_rfl, ?_⟩
    intro r' hr' _
    rcases mem_mapIf_cases hr' with ⟨r₀, h₀, hp, rfl⟩ | ⟨r₀, h₀, hp, rfl⟩
    · exact ⟨r₀, h₀, rfl, rfl⟩
    · exact ⟨r', h₀, rfl, rfl⟩
  | sendMsg n p =>
    simp only [step] at h
    split at h
    · injection h with h
      subst h
      exact ⟨le_rfl, fun r' hr' _ => ⟨r', hr', rfl, rfl⟩⟩
    · injection h with h
      subst h
      unfold sendTo
      split
      · exact ⟨le_rfl, fun r' hr' _ => ⟨r', hr', rfl, rfl⟩⟩
      · exact ⟨le_rfl, fun r' hr' _ => ⟨r', hr', rfl, rfl⟩⟩
  | wsOpen tk =>
    simp only [step] at h
    split at h
    · exact absurd h (by simp)
    rename_i t hft
    split at h
    · split at h
      · exact absurd h (by simp)
      injection h with h
      subst h
      refine ⟨le_rfl, ?_⟩
      intro r' hr' _
      rcases mem_updRec_cases hr' with ⟨r₀, h₀, hks, rfl⟩ | ⟨r₀, h₀, hks, rfl⟩
      · exact ⟨r₀, h₀, rfl, rfl⟩
      · exact ⟨r', h₀, rfl, rfl⟩
    · exact absurd h (by simp)
  | wsClose tk code reason =>
    simp only [step] at h
    split at h
    · exact absurd h (by simp)
    rename_i t hft
    split at h
    · split at h
      · exact absurd h (by simp)
      injection h with h
      subst h
      refine ⟨le_rfl, ?_⟩
      intro r' hr' _
      rcases mem_updRec_cases hr' with ⟨r₀, h₀, hks, rfl⟩ | ⟨r₀, h₀, hks, rfl⟩
      · have : ((if r₀.manualClose then { r₀ with pingTimer := false }
          else
            { r₀ with
              pingTimer := false
              reconnectTimer := true
              reconnectAttempts := r₀.reconnectAttempts + 1 } : ConnRec)).serial = r₀.serial ∧
            ((if r₀.manualClose then { r₀ with pingTimer := false }
          else
            { r₀ with
              pingTimer := false
              reconnectTimer := true
              reconnectAttempts := r₀.reconnectAttempts + 1 } : ConnRec)).id = r₀.id := by
          by_cases hb : r₀.manualClose <;> simp [hb]
        exact ⟨r₀, h₀, this.1.symm, this.2.symm⟩
      · exact ⟨r', h₀, rfl, rfl⟩
    · exact absurd h (by simp)
  | wsError tk msg =>
    simp only [step] at h
    split at h
    · exact absurd h (by simp)
    split at h
    · split at h
      · exact absurd h (by simp)
      · injection h with h
        subst h
        exact ⟨le_rfl, fun r' hr' _ => ⟨r', hr', rfl, rfl⟩⟩
    · exact absurd h (by simp)
  | wsMessage tk d isBin =>
    simp only [step] at h
    split at h
    · exact absurd h (by simp)
    split at h
    · split at h
      · exact absurd h (by simp)
      · injection h with h
        subst h
        exact ⟨le_rfl, fun r' hr' _ => ⟨r', hr', rfl, rfl⟩⟩
    · exact absurd h (by simp)
  | wsUnexpected tk status hdrs body =>
    simp only [step] at h
    split at h
    · exact absurd h (by simp)
    split at h
    · split at h
      · exact absurd h (by simp)
      · injection h with h
        subst h
        exact ⟨le_rfl, fun r' hr' _ => ⟨r', hr', rfl, rfl⟩⟩
    · exact absurd h (by simp)
  | fireReconnect k =>
    simp only [step] at h
    split at h
    · exact absurd h (by simp)
    rename_i r hfr
    split at h
    · injection h with h
      subst h
      refine ⟨Nat.le_succ _, ?_⟩
      intro r' hr' _
      rcases mem_updRec_cases hr' with ⟨r₀, h₀, hks, rfl⟩ | ⟨r₀, h₀, hks, rfl⟩
      · exact ⟨r₀, h₀, rfl, rfl⟩
      · exact ⟨r', h₀, rfl, rfl⟩
    · exact absurd h (by simp)
  | firePing k =>
    simp only [step] at h
    split at h
    · exact absurd h (by simp)
    split at h
    · injection h with h
      subst h
      exact ⟨le_rfl, fun r' hr' _ => ⟨r', hr', rfl, rfl⟩⟩
    · exact absurd h (by simp)

theorem applyClose_trace (s : PoolState) (m : String) :
    (applyCloseByName s m).trace = s.trace := by
  unfold applyCloseByName
  split
  · rfl
  split
  · rfl
  split
  · rfl
  · rfl

theorem applyClose_sent (s : PoolState) (m : String) :
    (applyCloseByName s m).sent = s.sent := by
  unfold applyCloseByName
  split
  · rfl
  split
  · rfl
  split
  · rfl
  · rfl

theorem closed_step {s s' : PoolState} {a : PoolAction} {n : String}
    (I : Inv s) (hac : AllClosed n s.recs)
    (hna : ∀ o, a ≠ PoolAction.cmdCreate n o)
    (h : step a s = some s') :
    AllClosed n s'.recs ∧
    (∃ u, s'.trace = s.trace ++ u ∧ ∀ url, PoolEvent.openEv n url ∉ u) ∧
    (∃ v, s'.sent = s.sent ++ v ∧ SentFrame.pingF n ∉ v) := by
  cases a with
  | cmdCreate m o =>
    have hm : m ≠ n := fun e => hna o (by rw [e])
    simp only [step] at h
    split at h
    · exact absurd h (by simp)
    · injection h with h
      subst h
      refine ⟨?_, ⟨[PoolEvent.ack "create" m], ?_, by intro url; simp⟩,
        ⟨[], ?_, by simp⟩⟩
      · intro r' hr' hid
        rcases List.mem_append.mp hr' with hmem | hmem
        · exact allClosed_applyClose m hac r' hmem hid
        · simp only [List.mem_singleton] at hmem
          subst hmem
          exact absurd hid hm
      · show (applyCloseByName s m).trace ++ _ = s.trace ++ _
        rw [applyClose_trace]
      · show (applyCloseByName s m).sent = s.sent ++ []
        rw [applyClose_sent, List.append_nil]
  | cmdClose m =>
    simp only [step] at h
    split at h
    · exact absurd h (by simp)
    · injection h with h
      subst h
      refine ⟨allClosed_applyClose m hac, ⟨[PoolEvent.ack "close" m], rfl, by intro url; simp⟩,
        ⟨[], ?_, by simp⟩⟩
      show (applyCloseByName s m).sent = s.sent ++ []
      rw [applyClose_sent, List.append_nil]
  | cmdDelete m =>
    simp only [step] at h
    split at h
    · exact absurd h (by simp)
    · injection h with h
      subst h
      refine ⟨allClosed_applyClose m hac, ⟨[PoolEvent.ack "delete" m], rfl, by intro url; simp⟩,
        ⟨[], ?_, by simp⟩⟩
      show (applyCloseByName s m).sent = s.sent ++ []
      rw [applyClose_sent, List.append_nil]
  | cmdCloseAll =>
    simp only [step] at h
    injection h with h
    subst h
    refine ⟨?_, ⟨[PoolEvent.ack "closeAll" ""], rfl, by intro url; simp⟩, ⟨[], by simp, by simp⟩⟩
    intro r' hr' hid
    rcases mem_mapIf_cases hr' with ⟨r₀, h₀, hp, rfl⟩ | ⟨r₀, h₀, hp, rfl⟩
    · rfl
    · exact hac r' h₀ hid
  | sendMsg m p =>
    simp only [step] at h
    split at h
    · injection h with h
      subst h
      exact ⟨hac, ⟨[], by simp, by simp⟩, ⟨[], by simp, by simp⟩⟩
    · injection h with h
      subst h
      unfold sendTo
      split
      · exact ⟨hac, ⟨[], by simp, by simp⟩, ⟨[], by simp, by simp⟩⟩
      · refine ⟨hac, ⟨[], by simp, by simp⟩, ⟨[encodeFrame m p], rfl, ?_⟩⟩
        cases p <;> simp [encodeFrame]
  | wsOpen tk =>
    simp only [step] at h
    split at h
    · exact absurd h (by simp)
    rename_i t hft
    split at h
    · rename_i hg
      split at h
      · exact absurd h (by simp)
      rename_i r hfr
      injection h with h
      subst h
      have hrid : r.id ≠ n := by
        intro he
        obtain ⟨hrm, hrs⟩ := findRec_mem hfr
        obtain ⟨htm, _⟩ := findTr_mem hft
        have hmc := hac r hrm he
        have hq := (I.closedQuiet r hrm hmc).2.2 t htm hrs.symm
        exact hq (Or.inr ⟨hg.1, hg.2.1, hg.2.2⟩)
      refine ⟨?_, ⟨[PoolEvent.openEv r.id r.url], rfl, ?_⟩, ⟨[], by simp, by simp⟩⟩
      · intro r' hr' hid
        rcases mem_updRec_cases hr' with ⟨r₀, h₀, hks, rfl⟩ | ⟨r₀, h₀, hks, rfl⟩
        · exact hac r₀ h₀ hid
        · exact hac r' h₀ hid
      · intro url hmem
        simp only [List.mem_singleton] at hmem
        injection hmem with h1 _
        exact hrid h1.symm
    · exact absurd h (by simp)
  | wsClose tk code reason =>
    simp only [step] at h
    split at h
    · exact absurd h (by simp)
    rename_i t hft
    split at h
    · split at h
      · exact absurd h (by simp)
      rename_i r hfr
      injection h with h
      subst h
      refine ⟨?_, ⟨[PoolEvent.closeEv r.id code reason r.url], rfl, by intro url; simp⟩,
        ⟨[], by simp, by simp⟩⟩
      intro r' hr' hid
      rcases mem_updRec_cases hr' with ⟨r₀, h₀, hks, rfl⟩ | ⟨r₀, h₀, hks, rfl⟩
      · have key : ((if r₀.manualClose then { r₀ with pingTimer := false }
          else
            { r₀ with
              pingTimer := false
              reconnectTimer := true
              reconnectAttempts := r₀.reconnectAttempts + 1 } : ConnRec)).id = r₀.id ∧
            ((if r₀.manualClose then { r₀ with pingTimer := false }
          else
            { r₀ with
              pingTimer := false
              reconnectTimer := true
              reconnectAttempts := r₀.reconnectAttempts + 1 } : ConnRec)).manualClose
              = r₀.manualClose := by
          by_cases hb : r₀.manualClose <;> simp [hb]
        rw [key.1] at hid
        rw [key.2]
        exact hac r₀ h₀ hid
      · exact hac r' h₀ hid
    · exact absurd h (by simp)
  | wsError tk msg =>
    simp only [step] at h
    split at h
    · exact absurd h (by simp)
    split at h
    · split at h
      · exact absurd h (by simp)
      rename_i r hfr
      injection h with h
      subst h
      exact ⟨hac, ⟨[PoolEvent.errorEv r.id msg], rfl, by intro url; simp⟩, ⟨[], by simp, by simp⟩⟩
    · exact absurd h (by simp)
  | wsMessage tk d isBin =>
    simp only [step] at h
    split at h
    · exact absurd h (by simp)
    split at h
    · split at h
      · exact absurd h (by simp)
      rename_i r hfr
      injection h with h
      subst h
      exact ⟨hac, ⟨[PoolEvent.messageEv r.id (inboundPayload d isBin) r.url], rfl,
        by intro url; simp⟩, ⟨[], by simp, by simp⟩⟩
    · exact absurd h (by simp)
  | wsUnexpected tk status hdrs body =>
    simp only [step] at h
    split at h
    · exact absurd h (by simp)
    split at h
    · split at h
      · exact absurd h (by simp)
      rename_i r hfr
      injection h with h
      subst h
      exact ⟨hac, ⟨[PoolEvent.httpErrorEv r.id status hdrs (jsSlice 2048 body)], rfl,
        by intro url; simp⟩, ⟨[], by simp, by simp⟩⟩
    · exact absurd h (by simp)
  | fireReconnect k =>
    simp only [step] at h
    split at h
    · exact absurd h (by simp)
    rename_i r hfr
    split at h
    · injection h with h
      subst h
      refine ⟨?_, ⟨[], by simp, by simp⟩, ⟨[], by simp, by simp⟩⟩
      intro r' hr' hid
      rcases mem_updRec_cases hr' with ⟨r₀, h₀, hks, rfl⟩ | ⟨r₀, h₀, hks, rfl⟩
      · exact hac r₀ h₀ hid
      · exact hac r' h₀ hid
    · exact absurd h (by simp)
  | firePing k =>
    simp only [step] at h
    split at h
    · exact absurd h (by simp)
    rename_i r hfr
    split at h
    · rename_i hg
      injection h with h
      subst h
      have hrid : r.id ≠ n := by
        intro he
        obtain ⟨hrm, _⟩ := findRec_mem hfr
        have hpt := (I.closedQuiet r hrm (hac r hrm he)).2.1
        rw [hpt] at hg
        exact Bool.false_ne_true hg
      refine ⟨hac, ⟨[], by simp, by simp⟩, ⟨_, rfl, ?_⟩⟩
      intro hmem
      split at hmem
      · simp only [List.mem_singleton] at hmem
        injection hmem with h1
        exact hrid h1.symm
      · exact absurd hmem (List.not_mem_nil _)
    · exact absurd h (by simp)

theorem closed_run {n : String} {acts : List PoolAction} :
    ∀ {s s' : PoolState}, Inv s → AllClosed n s.recs →
    (∀ o, PoolAction.cmdCreate n o ∉ acts) →
    run s acts = some s' →
    Inv s' ∧ AllClosed n s'.recs ∧
    (∃ u, s'.trace = s.trace ++ u ∧ ∀ url, PoolEvent.openEv n url ∉ u) ∧
    (∃ v, s'.sent = s.sent ++ v ∧ SentFrame.pingF n ∉ v) := by
  induction acts with
  | nil =>
    intro s s' I hac _ h
    simp only [run] at h
    injection h with h
    subst h
    exact ⟨I, hac, ⟨[], by simp, by simp⟩, ⟨[], by simp, by simp⟩⟩
  | cons a rest ih =>
    intro s s' I hac hno h
    simp only [run] at h
    split at h
    · exact absurd h (by simp)
    rename_i s₁ hstep
    have hna : ∀ o, a ≠ PoolAction.cmdCreate n o := by
      intro o he
      exact hno o (by rw [← he]; exact List.mem_cons_self a rest)
    obtain ⟨hac₁, ⟨u₁, htr₁, hu₁⟩, ⟨v₁, hs₁, hv₁⟩⟩ := closed_step I hac hna hstep
    have I₁ : Inv s₁ := inv_step I hstep
    have hno' : ∀ o, PoolAction.cmdCreate n o ∉ rest := by
      intro o hmem
      exact hno o (List.mem_cons_of_mem a hmem)
    obtain ⟨I', hac', ⟨u₂, htr₂, hu₂⟩, ⟨v₂, hs₂, hv₂⟩⟩ := ih I₁ hac₁ hno' h
    refine ⟨I', hac', ⟨u₁ ++ u₂, ?_, ?_⟩, ⟨v₁ ++ v₂, ?_, ?_⟩⟩
    · rw [htr₂, htr₁, List.append_assoc]
    · intro url hmem
      rcases List.mem_append.mp hmem with hm | hm
      · exact hu₁ url hm
      · exact hu₂ url hm
    · rw [hs₂, hs₁, List.append_assoc]
    · intro hmem
      rcases List.mem_append.mp hmem with hm | hm
      · exact hv₁ hm
      · exact hv₂ hm

theorem applyClose_nextSerial (s : PoolState) (m : String) :
    (applyCloseByName s m).nextSerial = s.nextSerial := by
  unfold applyCloseByName
  split
  · rfl
  split
  · rfl
  split
  · rfl
  · rfl

theorem inv_atMostOneLive {s : PoolState} (I : Inv s) (n : String) :
    AtMostOneLive s n := by
  intro t₁ ht₁ t₂ ht₂ hl₁ hl₂ hall₁ hex₁ hall₂ hex₂
  obtain ⟨r₁, hr₁, hs₁⟩ := hex₁
  obtain ⟨r₂, hr₂, hs₂⟩ := hex₂
  have hid₁ : r₁.id = n := hall₁ r₁ hr₁ hs₁
  have hid₂ : r₂.id = n := hall₂ r₂ hr₂ hs₂
  have hreg : ∀ (r : ConnRec) (t : Transport), r ∈ s.recs → t ∈ s.transports →
      r.serial = t.owner → liveT t → lookupKey s.connections r.id = some r.serial := by
    intro r t hr ht hs hl
    by_contra hne
    have hmc := I.unregClosed r hr hne
    exact (I.closedQuiet r hr hmc).2.2 t ht hs.symm hl
  have h₁ := hreg r₁ t₁ hr₁ ht₁ hs₁ hl₁
  have h₂ := hreg r₂ t₂ hr₂ ht₂ hs₂ hl₂
  rw [hid₁] at h₁
  rw [hid₂] at h₂
  rw [h₁] at h₂
  have hser : r₁.serial = r₂.serial := Option.some_inj.mp h₂
  have hr12 : r₁ = r₂ := rec_serial_inj I hr₁ hr₂ hser
  have hws₁ : r₁.ws = some t₁.serial := by
    by_contra hne
    have hcl := I.detachedClosed t₁ ht₁ r₁ hr₁ hs₁ hne
    rcases hl₁ with hl | ⟨hl, _⟩ <;> rw [hcl] at hl <;> exact WsState.noConfusion hl
  have hws₂ : r₂.ws = some t₂.serial := by
    by_contra hne
    have hcl := I.detachedClosed t₂ ht₂ r₂ hr₂ hs₂ hne
    rcases hl₂ with hl | ⟨hl, _⟩ <;> rw [hcl] at hl <;> exact WsState.noConfusion hl
  have hts : some t₁.serial = some t₂.serial := by rw [← hws₁, hr12, hws₂]
  exact tr_serial_inj I ht₁ ht₂ (Option.some_inj.mp hts)

theorem allClosed_step_close {s s₁ : PoolState} {n : String} (I : Inv s)
    (hcl : step (PoolAction.cmdClose n) s = some s₁) : AllClosed n s₁.recs := by
  simp only [step] at hcl
  split at hcl
  · exact absurd hcl (by simp)
  · injection hcl with hcl
    subst hcl
    exact applyClose_allClosed s n I

theorem step_create_a : step (PoolAction.cmdCreate "a" exOpts) (initState exCfg) = some stA1 := by
  rfl

theorem step_open_a : step (PoolAction.wsOpen 1) stA1 = some stAO := by
  rfl

theorem reach_stAO : Reach exCfg stAO :=
  Reach.next (Reach.next Reach.init step_create_a) step_open_a

theorem step_close_a : step (PoolAction.cmdClose "a") stAO = some stClosedA := by
  rfl

theorem step_recreate_a : step (PoolAction.cmdCreate "a" exOpts) stAO = some stA2 := by
  rfl

theorem run_closedA_wsClose :
    run stClosedA [PoolAction.wsClose 1 1000 "bye"] = some stClosedA2 := by
  rfl

/-- C1 (amended): creating a name that already exists first mutes the old
entry — every pre-existing record bound to the name leaves the step manually
closed with both timers cancelled — installs the replacement without emitting
any event for the implicit close (the step's whole trace extension is the one
create acknowledgement), keeps the registry keys duplicate-free, and leaves at
most one live transport for the name. (The original claim's further promise
that no event is ever emitted from the old transport afterwards is refuted by
`create_replace_emits_close_cex`.) -/
theorem create_teardown_before_install {cfg : NodeConfig} {s s' : PoolState}
    {n : String} {o : CreateOpts}
    (hR : Reach cfg s)
    (h : step (PoolAction.cmdCreate n o) s = some s') :
    s'.trace = s.trace ++ [PoolEvent.ack "create" n] ∧
    (∀ r' ∈ s'.recs, r'.id = n → r'.serial < s.nextSerial →
      r'.manualClose = true ∧ r'.reconnectTimer = false ∧ r'.pingTimer = false) ∧
    (s'.connections.map (fun p => p.1)).Nodup ∧
    AtMostOneLive s' n := by
  have I : Inv s := reach_inv hR
  have I' : Inv s' := inv_step I h
  simp only [step] at h
  split at h
  · exact absurd h (by simp)
  · injection h with h
    subst h
    refine ⟨?_, ?_, I'.connNodup, inv_atMostOneLive I' n⟩
    · show (applyCloseByName s n).trace ++ _ = s.trace ++ _
      rw [applyClose_trace]
    · intro r' hr' hid hlt
      rcases List.mem_append.mp hr' with hm | hm
      · have hmc := applyClose_allClosed s n I r' hm hid
        obtain ⟨h1, h2, _⟩ := (inv_applyClose s n I).closedQuiet r' hm hmc
        exact ⟨hmc, h1, h2⟩
      · simp only [List.mem_singleton] at hm
        subst hm
        have hlt' : (applyCloseByName s n).nextSerial < s.nextSerial := hlt
        rw [applyClose_nextSerial] at hlt'
        exact absurd hlt' (lt_irrefl _)

theorem create_teardown_before_install_witness :
    stA2.trace = stAO.trace ++ [PoolEvent.ack "create" "a"] ∧
    (∀ r' ∈ stA2.recs, r'.id = "a" → r'.serial < stAO.nextSerial →
      r'.manualClose = true ∧ r'.reconnectTimer = false ∧ r'.pingTimer = false) ∧
    (stA2.connections.map (fun p => p.1)).Nodup ∧
    AtMostOneLive stA2 "a" :=
  create_teardown_before_install reach_stAO step_recreate_a

/-- C2: once `close(n)` has run, every record bound to `n` is manually
closed; along any continuation that never issues `create(n, …)`, the records
bound to `n` stay manually closed with no reconnect timer armed, and the
emitted trace gains no `open` event for `n`. -/
theorem manualClose_no_reopen {cfg : NodeConfig} {s s₁ s' : PoolState} {n : String}
    {acts : List PoolAction}
    (hR : Reach cfg s)
    (hcl : step (PoolAction.cmdClose n) s = some s₁)
    (hno : ∀ o, PoolAction.cmdCreate n o ∉ acts)
    (hrun : run s₁ acts = some s') :
    (∀ r ∈ s₁.recs, r.id = n → r.manualClose = true) ∧
    (∀ r ∈ s'.recs, r.id = n → r.manualClose = true ∧ r.reconnectTimer = false) ∧
    (∃ u, s'.trace = s₁.trace ++ u ∧ ∀ url, PoolEvent.openEv n url ∉ u) := by
  have I : Inv s := reach_inv hR
  have I₁ : Inv s₁ := inv_step I hcl
  have hac₁ : AllClosed n s₁.recs := allClosed_step_close I hcl
  obtain ⟨I', hac', ⟨u, htr, hu⟩, _⟩ := closed_run I₁ hac₁ hno hrun
  refine ⟨hac₁, ?_, ⟨u, htr, hu⟩⟩
  intro r hr hid
  exact ⟨hac' r hr hid, (I'.closedQuiet r hr (hac' r hr hid)).1⟩

theorem manualClose_no_reopen_witness :
    (∀ r ∈ stClosedA.recs, r.id = "a" → r.manualClose = true) ∧
    (∀ r ∈ stClosedA2.recs, r.id = "a" → r.manualClose = true ∧ r.reconnectTimer = false) ∧
    (∃ u, stClosedA2.trace = stClosedA.trace ++ u ∧
      ∀ url, PoolEvent.openEv "a" url ∉ u) :=
  manualClose_no_reopen reach_stAO step_close_a (by intro o; simp) run_closedA_wsClose

/-- C9: in every reachable state the heartbeat timer of a record is armed iff
its ping interval is positive and its attached socket is currently open; after
`close(n)` the records bound to `n` have the timer cancelled, and along any
continuation that never re-creates `n` no ping frame for `n` is ever sent. -/
theorem heartbeat_iff_open {cfg : NodeConfig} {s s₁ s' : PoolState} {n : String}
    {acts : List PoolAction}
    (hR : Reach cfg s)
    (hcl : step (PoolAction.cmdClose n) s = some s₁)
    (hno : ∀ o, PoolAction.cmdCreate n o ∉ acts)
    (hrun : run s₁ acts = some s') :
    (∀ r ∈ s.recs, r.pingTimer = true ↔
      (r.pingInterval > 0 ∧ ∃ t ∈ s.transports, r.ws = some t.serial ∧
        t.owner = r.serial ∧ t.st = WsState.opened)) ∧
    (∀ r ∈ s₁.recs, r.id = n → r.pingTimer = false) ∧
    (∃ v, s'.sent = s₁.sent ++ v ∧ SentFrame.pingF n ∉ v) := by
  have I : Inv s := reach_inv hR
  have I₁ : Inv s₁ := inv_step I hcl
  have hac₁ : AllClosed n s₁.recs := allClosed_step_close I hcl
  obtain ⟨_, _, _, ⟨v, hsent, hv⟩⟩ := closed_run I₁ hac₁ hno hrun
  refine ⟨I.pingIff, ?_, ⟨v, hsent, hv⟩⟩
  intro r hr hid
  exact (I₁.closedQuiet r hr (hac₁ r hr hid)).2.1

theorem heartbeat_iff_open_witness :
    (∀ r ∈ stAO.recs, r.pingTimer = true ↔
      (r.pingInterval > 0 ∧ ∃ t ∈ stAO.transports, r.ws = some t.serial ∧
        t.owner = r.serial ∧ t.st = WsState.opened)) ∧
    (∀ r ∈ stClosedA.recs, r.id = "a" → r.pingTimer = false) ∧
    (∃ v, stClosedA2.sent = stClosedA.sent ++ v ∧ SentFrame.pingF "a" ∉ v) :=
  heartbeat_iff_open reach_stAO step_close_a (by intro o; simp) run_closedA_wsClose

end WSPool
